import Mathlib

/-!
Verification of the widget-tree document engine of pygubu-designer
(`pygubudesigner/uitreeeditor.py`, `pygubudesigner/main.py`,
`pygubudesigner/widgets/toplevelframe.py`) against its specification.

The Python sources are shallowly embedded: the mutable treeview/treedata pair
becomes rose trees (`WNode` for document nodes, `Item` for displayed tree rows),
the external component catalog (`CLASS_MAP[...].builder` of the pygubu library)
and the external `json` decoder become data parameters (`Env`), and loops become
structural recursions, fuelled where the Python loop has no structural bound.
-/

namespace Pygubu

/-- Python's `needle in hay` substring test on strings. -/
def strContains (hay needle : String) : Bool :=
  hay.toList.tails.any (fun t => needle.toList.isPrefixOf t)

/-- Declarative substring relation: `needle` occurs contiguously inside `hay`. -/
def IsSubstr (needle hay : String) : Prop :=
  ∃ pre post : String, hay = pre ++ needle ++ post

/-- One event binding of a widget (`wmeta.bindings` entries; only the handler
name is consulted by the tree editor). -/
structure Binding where
  sequence : String
  handler : String
deriving DecidableEq, Repr

/-- Modelled from the spec: the Node record of the data model (§3) — the
`WidgetMeta` class of `widgetdescr.py`, which is not among the analysed sources:
classname, identifier, ordered property map, layout manager, manager-specific
layout map, the manager enforced on the node's own children, the ordered event
bindings, and whether the widget requires layout information at all. -/
structure WidgetData where
  classname : String
  identifier : String
  properties : List (String × String)
  manager : String
  layout : List (String × String)
  container_manager : String
  bindings : List Binding
  layout_required : Bool
deriving DecidableEq, Repr

/-- Lookup in an ordered (key, value) map, with a default. -/
def lookupD (m : List (String × String)) (k d : String) : String :=
  match m.find? (fun kv => kv.1 == k) with
  | some kv => kv.2
  | none => d

/-- Write a key in an ordered (key, value) map, appending when absent. -/
def setKey (m : List (String × String)) (k v : String) : List (String × String) :=
  if m.any (fun kv => kv.1 == k) then
    m.map (fun kv => if kv.1 == k then (k, v) else kv)
  else m ++ [(k, v)]

/-- Modelled from the spec: the `wmeta.layout_property(name)` getter — a read of
the manager-specific layout mapping (§3), empty string when absent. -/
def WidgetData.layout_prop (w : WidgetData) (name : String) : String :=
  lookupD w.layout name ""

/-- Modelled from the spec: the `wmeta.layout_property(name, value)` setter. -/
def WidgetData.layout_prop_set (w : WidgetData) (k v : String) : WidgetData :=
  { w with layout := setKey w.layout k v }

/-- Modelled from the spec: `wmeta.has_layout_defined()` — whether the node
carries any layout information (the layout mapping is non-empty). -/
def WidgetData.has_layout_defined (w : WidgetData) : Bool :=
  w.layout ≠ []

/-- Constraint record of one component class in the external component catalog
(`CLASS_MAP[classname].builder` of the pygubu library, consumed as data). -/
structure BuilderSpec where
  allowed_children : Option (List String)
  maxchildren : Option Nat
  allowed_parents : Option (List String)
  container : Bool
  tkvar_properties : List String
  command_properties : List String
deriving DecidableEq, Repr

/-- The external collaborators consulted by the tree editor: the component
catalog (`CLASS_MAP`) and the `json` decoder used on command property values
(`json.loads(value)['value']`). Both are outside the analysed sources and are
passed in as data. -/
structure Env where
  builder : String → BuilderSpec
  mapped : String → Bool
  jsonValue : String → String

/-- A document node: its `WidgetMeta` record (`self.treedata[iid]`) together
with its ordered children (`self.treeview.get_children(iid)`). -/
inductive WNode where
  | mk (data : WidgetData) (children : List WNode)

/-- The widget record of a node. -/
def WNode.data : WNode → WidgetData
  | .mk d _ => d

/-- The ordered children of a node. -/
def WNode.children : WNode → List WNode
  | .mk _ ch => ch

mutual

/-- `_is_id_defined(root, widget_id)` at a real item: the item's own identifier
is compared first, then the children are searched, stopping at the first hit. -/
def is_id_defined_node (wid : String) : WNode → Bool
  | .mk d ch => (d.identifier == wid) || is_id_defined_forest wid ch

/-- `_is_id_defined('', widget_id)`: search the forest below the virtual root. -/
def is_id_defined_forest (wid : String) : List WNode → Bool
  | [] => false
  | c :: rest => is_id_defined_node wid c || is_id_defined_forest wid rest

end

/-- Variable-name extraction of `_is_tkvar_defined`: values of the shape
`type:name` keep the part after the colon, bare values are used whole. (A value
with more than one colon makes the Python tuple unpacking fail; the model keeps
such a value unchanged.) -/
def tkvarNameOf (value : String) : String :=
  if strContains value ":" then
    match value.splitOn ":" with
    | [_, vn] => vn
    | _ => value
  else value

mutual

/-- `_is_tkvar_defined(root, varname)` at a real item: every property that the
catalog marks as a variable-binding property is parsed and compared, then the
children are searched. -/
def is_tkvar_defined_node (env : Env) (varname : String) : WNode → Bool
  | .mk d ch =>
    (d.properties.any (fun pv =>
      (env.builder d.classname).tkvar_properties.contains pv.1
        && (tkvarNameOf pv.2 == varname)))
      || is_tkvar_defined_forest env varname ch

/-- `_is_tkvar_defined('', varname)`: search the forest below the virtual root. -/
def is_tkvar_defined_forest (env : Env) (varname : String) : List WNode → Bool
  | [] => false
  | c :: rest =>
    is_tkvar_defined_node env varname c || is_tkvar_defined_forest env varname rest

end

mutual

/-- `_is_command_defined(root, command_name)` at a real item: every property the
catalog marks as a command property is JSON-decoded and its `value` field
compared, then the children are searched. -/
def is_command_defined_node (env : Env) (cmdname : String) : WNode → Bool
  | .mk d ch =>
    (d.properties.any (fun pv =>
      (env.builder d.classname).command_properties.contains pv.1
        && (cmdname == env.jsonValue pv.2)))
      || is_command_defined_forest env cmdname ch

/-- `_is_command_defined('', command_name)`: search below the virtual root. -/
def is_command_defined_forest (env : Env) (cmdname : String) : List WNode → Bool
  | [] => false
  | c :: rest =>
    is_command_defined_node env cmdname c || is_command_defined_forest env cmdname rest

end

mutual

/-- `_is_binding_defined(root, cbname)` at a real item: every binding's handler
name is compared, then the children are searched. -/
def is_binding_defined_node (cbname : String) : WNode → Bool
  | .mk d ch =>
    (d.bindings.any (fun b => b.handler == cbname)) || is_binding_defined_forest cbname ch

/-- `_is_binding_defined('', cbname)`: search the forest below the virtual root. -/
def is_binding_defined_forest (cbname : String) : List WNode → Bool
  | [] => false
  | c :: rest =>
    is_binding_defined_node cbname c || is_binding_defined_forest cbname rest

end

/-- `is_id_unique(idvalue)`: an identifier is accepted only when it collides
with none of the four name kinds anywhere in the tree. -/
def is_id_unique (env : Env) (f : List WNode) (idvalue : String) : Bool :=
  !is_id_defined_forest idvalue f
    && !is_tkvar_defined_forest env idvalue f
    && !is_command_defined_forest env idvalue f
    && !is_binding_defined_forest idvalue f

/-- `is_command_valid(cmdname)`: checks identifiers, binding handlers and
variable names — existing command names are not consulted. -/
def is_command_valid (env : Env) (f : List WNode) (cmdname : String) : Bool :=
  !is_id_defined_forest cmdname f
    && !is_binding_defined_forest cmdname f
    && !is_tkvar_defined_forest env cmdname f

/-- `is_tkvar_valid(varname)`: checks identifiers, command names and binding
handlers — existing variable names are not consulted. -/
def is_tkvar_valid (env : Env) (f : List WNode) (varname : String) : Bool :=
  !is_id_defined_forest varname f
    && !is_command_defined_forest env varname f
    && !is_binding_defined_forest varname f

/-- `is_binding_valid(cmdname)`: checks identifiers, command names and variable
names — existing binding-handler names are not consulted. -/
def is_binding_valid (env : Env) (f : List WNode) (cmdname : String) : Bool :=
  !is_id_defined_forest cmdname f
    && !is_command_defined_forest env cmdname f
    && !is_tkvar_defined_forest env cmdname f

mutual

/-- All node identifiers of a subtree, in preorder. -/
def identifiersN : WNode → List String
  | .mk d ch => d.identifier :: identifiersF ch

/-- All node identifiers of a forest. -/
def identifiersF : List WNode → List String
  | [] => []
  | c :: rest => identifiersN c ++ identifiersF rest

end

mutual

/-- All bound-variable names of a subtree (parsed from catalog-recognised
variable-binding properties). -/
def tkvarNamesN (env : Env) : WNode → List String
  | .mk d ch =>
    ((d.properties.filter (fun pv =>
        (env.builder d.classname).tkvar_properties.contains pv.1)).map
      (fun pv => tkvarNameOf pv.2)) ++ tkvarNamesF env ch

/-- All bound-variable names of a forest. -/
def tkvarNamesF (env : Env) : List WNode → List String
  | [] => []
  | c :: rest => tkvarNamesN env c ++ tkvarNamesF env rest

end

mutual

/-- All command names of a subtree (decoded from catalog-recognised command
properties). -/
def commandNamesN (env : Env) : WNode → List String
  | .mk d ch =>
    ((d.properties.filter (fun pv =>
        (env.builder d.classname).command_properties.contains pv.1)).map
      (fun pv => env.jsonValue pv.2)) ++ commandNamesF env ch

/-- All command names of a forest. -/
def commandNamesF (env : Env) : List WNode → List String
  | [] => []
  | c :: rest => commandNamesN env c ++ commandNamesF env rest

end

mutual

/-- All binding-handler names of a subtree. -/
def bindingHandlersN : WNode → List String
  | .mk d ch => (d.bindings.map Binding.handler) ++ bindingHandlersF ch

/-- All binding-handler names of a forest. -/
def bindingHandlersF : List WNode → List String
  | [] => []
  | c :: rest => bindingHandlersN c ++ bindingHandlersF rest

end

mutual

theorem is_id_defined_node_iff (wid : String) (n : WNode) :
    is_id_defined_node wid n = true ↔ wid ∈ identifiersN n := by
  match n with
  | .mk d ch =>
    simp only [is_id_defined_node, identifiersN, Bool.or_eq_true, beq_iff_eq,
      List.mem_cons]
    rw [is_id_defined_forest_iff]
    constructor
    · rintro (h | h)
      · exact Or.inl h.symm
      · exact Or.inr h
    · rintro (h | h)
      · exact Or.inl h.symm
      · exact Or.inr h

theorem is_id_defined_forest_iff (wid : String) (f : List WNode) :
    is_id_defined_forest wid f = true ↔ wid ∈ identifiersF f := by
  match f with
  | [] => simp [is_id_defined_forest, identifiersF]
  | c :: rest =>
    simp only [is_id_defined_forest, identifiersF, Bool.or_eq_true, List.mem_append]
    rw [is_id_defined_node_iff, is_id_defined_forest_iff]

end

mutual

theorem is_tkvar_defined_node_iff (env : Env) (v : String) (n : WNode) :
    is_tkvar_defined_node env v n = true ↔ v ∈ tkvarNamesN env n := by
  match n with
  | .mk d ch =>
    simp only [is_tkvar_defined_node, tkvarNamesN, Bool.or_eq_true, List.mem_append,
      List.any_eq_true, Bool.and_eq_true, beq_iff_eq, List.mem_map, List.mem_filter]
    rw [is_tkvar_defined_forest_iff]
    constructor
    · rintro (⟨pv, hpv, hmark, hname⟩ | h)
      · exact Or.inl ⟨pv, ⟨hpv, hmark⟩, hname⟩
      · exact Or.inr h
    · rintro (⟨pv, ⟨hpv, hmark⟩, hname⟩ | h)
      · exact Or.inl ⟨pv, hpv, hmark, hname⟩
      · exact Or.inr h

theorem is_tkvar_defined_forest_iff (env : Env) (v : String) (f : List WNode) :
    is_tkvar_defined_forest env v f = true ↔ v ∈ tkvarNamesF env f := by
  match f with
  | [] => simp [is_tkvar_defined_forest, tkvarNamesF]
  | c :: rest =>
    simp only [is_tkvar_defined_forest, tkvarNamesF, Bool.or_eq_true, List.mem_append]
    rw [is_tkvar_defined_node_iff, is_tkvar_defined_forest_iff]

end

mutual

theorem is_command_defined_node_iff (env : Env) (v : String) (n : WNode) :
    is_command_defined_node env v n = true ↔ v ∈ commandNamesN env n := by
  match n with
  | .mk d ch =>
    simp only [is_command_defined_node, commandNamesN, Bool.or_eq_true, List.mem_append,
      List.any_eq_true, Bool.and_eq_true, beq_iff_eq, List.mem_map, List.mem_filter]
    rw [is_command_defined_forest_iff]
    constructor
    · rintro (⟨pv, hpv, hmark, hname⟩ | h)
      · exact Or.inl ⟨pv, ⟨hpv, hmark⟩, hname.symm⟩
      · exact Or.inr h
    · rintro (⟨pv, ⟨hpv, hmark⟩, hname⟩ | h)
      · exact Or.inl ⟨pv, hpv, hmark, hname.symm⟩
      · exact Or.inr h

theorem is_command_defined_forest_iff (env : Env) (v : String) (f : List WNode) :
    is_command_defined_forest env v f = true ↔ v ∈ commandNamesF env f := by
  match f with
  | [] => simp [is_command_defined_forest, commandNamesF]
  | c :: rest =>
    simp only [is_command_defined_forest, commandNamesF, Bool.or_eq_true, List.mem_append]
    rw [is_command_defined_node_iff, is_command_defined_forest_iff]

end

mutual

theorem is_binding_defined_node_iff (v : String) (n : WNode) :
    is_binding_defined_node v n = true ↔ v ∈ bindingHandlersN n := by
  match n with
  | .mk d ch =>
    simp only [is_binding_defined_node, bindingHandlersN, Bool.or_eq_true,
      List.mem_append, List.any_eq_true, beq_iff_eq, List.mem_map]
    rw [is_binding_defined_forest_iff]
    try tauto

theorem is_binding_defined_forest_iff (v : String) (f : List WNode) :
    is_binding_defined_forest v f = true ↔ v ∈ bindingHandlersF f := by
  match f with
  | [] => simp [is_binding_defined_forest, bindingHandlersF]
  | c :: rest =>
    simp only [is_binding_defined_forest, bindingHandlersF, Bool.or_eq_true,
      List.mem_append]
    rw [is_binding_defined_node_iff, is_binding_defined_forest_iff]

end

/-- C1 (amended): `is_id_unique` accepts a name exactly when it collides with
none of the four name kinds anywhere in the tree, while each of the three
per-kind validators `is_command_valid`, `is_tkvar_valid`, `is_binding_valid`
accepts a name exactly when it collides with none of the OTHER three kinds —
each one ignores already-present names of its own kind. -/
theorem c1_validators_characterisation (env : Env) (f : List WNode) (n : String) :
    (is_id_unique env f n = true ↔
      (n ∉ identifiersF f ∧ n ∉ tkvarNamesF env f ∧
        n ∉ commandNamesF env f ∧ n ∉ bindingHandlersF f))
    ∧ (is_command_valid env f n = true ↔
      (n ∉ identifiersF f ∧ n ∉ bindingHandlersF f ∧ n ∉ tkvarNamesF env f))
    ∧ (is_tkvar_valid env f n = true ↔
      (n ∉ identifiersF f ∧ n ∉ commandNamesF env f ∧ n ∉ bindingHandlersF f))
    ∧ (is_binding_valid env f n = true ↔
      (n ∉ identifiersF f ∧ n ∉ commandNamesF env f ∧ n ∉ tkvarNamesF env f)) := by
  refine ⟨?_, ?_, ?_, ?_⟩ <;>
    (simp only [is_id_unique, is_command_valid, is_tkvar_valid, is_binding_valid,
      Bool.and_eq_true, Bool.not_eq_true', Bool.not_eq_true,
      ← Bool.not_eq_true (is_id_defined_forest n f),
      ← Bool.not_eq_true (is_tkvar_defined_forest env n f),
      ← Bool.not_eq_true (is_command_defined_forest env n f),
      ← Bool.not_eq_true (is_binding_defined_forest n f),
      is_id_defined_forest_iff, is_tkvar_defined_forest_iff,
      is_command_defined_forest_iff, is_binding_defined_forest_iff]
     try tauto)

/-- A small concrete catalog for the C1 counterexample: a button class whose
`command` property is a command reference. -/
def envC1 : Env :=
  { builder := fun c =>
      if c == "ttk.Button" then
        { allowed_children := none, maxchildren := none, allowed_parents := none,
          container := false, tkvar_properties := [], command_properties := ["command"] }
      else
        { allowed_children := none, maxchildren := none, allowed_parents := none,
          container := true, tkvar_properties := [], command_properties := [] }
    mapped := fun _ => true
    jsonValue := fun s => if s == "cmd-json-encoding-of-foo" then "foo" else "" }

/-- A tree holding one button whose command property refers to handler `foo`. -/
def forestC1 : List WNode :=
  [WNode.mk
    { classname := "ttk.Button", identifier := "button1",
      properties := [("command", "cmd-json-encoding-of-foo")],
      manager := "pack", layout := [], container_manager := "pack",
      bindings := [], layout_required := true } []]

/-- C1 counterexample: the claim says every per-kind validation entry point
accepts a name only if it collides with none of the four kinds; but
`is_command_valid` accepts `foo` even though `foo` is already a command name in
the tree (the validator never consults existing command names). -/
theorem c1_counterexample :
    is_command_valid envC1 forestC1 "foo" = true
      ∧ "foo" ∈ commandNamesF envC1 forestC1 := by
  constructor
  · decide
  · decide

/-! Identifier generation (`_generate_id` / `get_unique_id`).  Python's
`str.lower()`, `str.capitalize()`, `str.split()` and `int()` are modelled by
structurally recursive character-list functions (ASCII case mapping, matching
the Python behaviour on the ASCII identifiers this code produces). -/

/-- Python `str.lower()` (ASCII). -/
def lowerStr (s : String) : String := ⟨s.data.map Char.toLower⟩

/-- Python `str.capitalize()` on an already lower-cased string: upper-case the
first character. -/
def capStr (s : String) : String :=
  match s.data with
  | [] => s
  | a :: rest => ⟨a.toUpper :: rest⟩

/-- Python `str.split(sep)` for a one-character separator, on character lists. -/
def splitOnChar (c : Char) (l : List Char) : List (List Char) :=
  match l with
  | [] => [[]]
  | a :: rest =>
    let r := splitOnChar c rest
    if a = c then [] :: r
    else match r with
      | [] => [[a]]
      | g :: gs => (a :: g) :: gs

/-- The user preferences consulted by the tree editor (the external
`preferences` module, consumed as data): widget-name separator, upper-first
letter cosmetics, and the default layout manager. -/
structure Prefs where
  separator_underscore : Bool
  ufletter : Bool
  default_layout_manager : String

/-- `_generate_id(classname, index)`: short class name, optional underscore
separator, the counter value, lower-cased, optionally capitalised. -/
def generate_id (p : Prefs) (classname : String) (index : Nat) : String :=
  let base : String := ⟨(splitOnChar '.' classname.data).getLastD []⟩
  let name := if p.separator_underscore
    then base ++ "_" ++ Nat.repr index
    else base ++ Nat.repr index
  let name := lowerStr name
  if p.ufletter then capStr name else name

/-- `get_unique_id(classname)` with `start_id=None`: bump the per-classname
counter, generate a candidate, and retry while `_is_id_defined('', candidate)`
holds.  The unbounded Python `while` is given explicit fuel; the result is the
accepted identifier together with the final counter value. -/
def get_unique_id_fresh (p : Prefs) (f : List WNode) (classname : String) :
    Nat → Nat → Option (String × Nat)
  | _, 0 => none
  | ctr, fuel + 1 =>
    let c := ctr + 1
    let cand := generate_id p classname c
    if is_id_defined_forest cand f then get_unique_id_fresh p f classname c fuel
    else some (cand, c)

/-- `get_unique_id(classname, start_id)` with a given start id (the paste/load
path): keep `start_id` when it is not yet a tree identifier, otherwise fall
into the retry loop. -/
def get_unique_id_from (p : Prefs) (f : List WNode) (classname start : String)
    (ctr fuel : Nat) : Option (String × Nat) :=
  if is_id_defined_forest start f then get_unique_id_fresh p f classname ctr fuel
  else some (start, ctr)

/-- C3 (amended): whenever some candidate within fuel range is free,
`get_unique_id` returns `{basename}{separator}{counter}` for the bumped
counter value, having retried past exactly the candidates that collide with an
existing *node identifier* — uniqueness is checked against node identifiers
only, not against all four namespaces. -/
theorem c3_generate_unique_id (p : Prefs) (f : List WNode) (cn : String) :
    ∀ (fuel ctr : Nat),
      (∃ j, ctr < j ∧ j ≤ ctr + fuel ∧
        is_id_defined_forest (generate_id p cn j) f = false) →
      ∃ id c2, get_unique_id_fresh p f cn ctr fuel = some (id, c2) ∧
        id = generate_id p cn c2 ∧
        is_id_defined_forest id f = false ∧
        ctr < c2 ∧ c2 ≤ ctr + fuel ∧
        ∀ j, ctr < j → j < c2 → is_id_defined_forest (generate_id p cn j) f = true := by
  intro fuel
  induction fuel with
  | zero =>
    rintro ctr ⟨j, hj1, hj2, -⟩
    omega
  | succ fuel ih =>
    rintro ctr ⟨j, hj1, hj2, hjfree⟩
    by_cases h : is_id_defined_forest (generate_id p cn (ctr + 1)) f = true
    · have hjne : ctr + 1 < j := by
        rcases Nat.lt_or_ge (ctr + 1) j with h' | h'
        · exact h'
        · exfalso
          have : j = ctr + 1 := by omega
          rw [this] at hjfree
          rw [hjfree] at h
          exact Bool.false_ne_true h
      obtain ⟨id, c2, hres, hform, hfree, hlt, hle, hmid⟩ :=
        ih (ctr + 1) ⟨j, hjne, by omega, hjfree⟩
      refine ⟨id, c2, ?_, hform, hfree, by omega, by omega, ?_⟩
      · simpa [get_unique_id_fresh, h] using hres
      · intro k hk1 hk2
        rcases Nat.lt_or_ge (ctr + 1) k with h' | h'
        · exact hmid k h' hk2
        · have : k = ctr + 1 := by omega
          rw [this]
          exact h
    · refine ⟨generate_id p cn (ctr + 1), ctr + 1, ?_, rfl,
        Bool.not_eq_true _ ▸ h, by omega, by omega, ?_⟩
      · simp [get_unique_id_fresh, Bool.not_eq_true _ ▸ h]
      · intro k hk1 hk2
        omega

/-- Witness for C3: on an empty tree the very first candidate for
`ttk.Button` is free and is returned with counter value 1. -/
theorem c3_generate_unique_id_witness :
    ∃ id c2,
      get_unique_id_fresh ⟨false, false, "pack"⟩ [] "ttk.Button" 0 1 = some (id, c2) ∧
      id = generate_id ⟨false, false, "pack"⟩ "ttk.Button" c2 ∧
      is_id_defined_forest id [] = false ∧
      0 < c2 ∧ c2 ≤ 0 + 1 ∧
      ∀ j, 0 < j → j < c2 →
        is_id_defined_forest (generate_id ⟨false, false, "pack"⟩ "ttk.Button" j) [] = true :=
  c3_generate_unique_id ⟨false, false, "pack"⟩ [] "ttk.Button" 1 0
    ⟨1, by decide, by decide, by decide⟩

/-- Catalog for the C3 counterexample: an entry class whose `textvariable`
property is a variable binding. -/
def envC3 : Env :=
  { builder := fun c =>
      if c == "ttk.Entry" then
        { allowed_children := none, maxchildren := none, allowed_parents := none,
          container := false, tkvar_properties := ["textvariable"],
          command_properties := [] }
      else
        { allowed_children := none, maxchildren := none, allowed_parents := none,
          container := true, tkvar_properties := [], command_properties := [] }
    mapped := fun _ => true
    jsonValue := fun _ => "" }

/-- A tree holding one entry whose text variable is named `button1`. -/
def forestC3 : List WNode :=
  [WNode.mk
    { classname := "ttk.Entry", identifier := "entry1",
      properties := [("textvariable", "button1")],
      manager := "pack", layout := [], container_manager := "pack",
      bindings := [], layout_required := true } []]

/-- C3 counterexample: the claim says `generateId` retries until the candidate
is unique across all four namespaces; but `get_unique_id` consults only node
identifiers, so it happily returns `button1` even though `button1` is already
a bound-variable name in the tree (`is_id_unique` rejects it). -/
theorem c3_counterexample :
    get_unique_id_fresh ⟨false, false, "pack"⟩ forestC3 "ttk.Button" 0 1 =
        some ("button1", 1)
      ∧ is_id_unique envC3 forestC3 "button1" = false := by
  constructor
  · decide
  · decide

/-! Structural validation (`_validate_add`). -/

/-- `_validate_add(root_item, classname)`: structural validation of inserting
`classname` under `root` (`none` models the empty-string root item, i.e.
insertion at top level), translated clause by clause, first failure wins.
Python truthiness: an empty `allowed_children` tuple skips the first clause,
but only a `None` `allowed_children` triggers the container clause. -/
def validate_add (env : Env) (root : Option WNode) (classname : String) : Bool :=
  let nb := env.builder classname
  match root with
  | some rootN =>
    let rb := env.builder rootN.data.classname
    let ac := rb.allowed_children.getD []
    if !ac.isEmpty && !(ac.contains classname) then false
    else if (match rb.maxchildren with
             | some m => decide (rootN.children.length ≥ m)
             | none => false) then false
    else if (match nb.allowed_parents with
             | some ap => !(ap.contains rootN.data.classname)
             | none => false) then false
    else if rb.allowed_children.isNone && !rb.container then false
    else true
  | none =>
    if (match nb.allowed_parents with
        | some ap => !(ap.contains "root")
        | none => false) then false
    else if !nb.container then false
    else true

/-- C4 (amended): top-level insertion of `classname` is accepted iff
(`allowed_parents` is unspecified or contains `root`) AND the class is a
container — the container requirement is unconditional, so a class declaring
`allowed_parents=()` (empty) is rejected at root as well as under any parent
whose classname is not among its allowed parents. -/
theorem c4_root_validation (env : Env) (cn : String) :
    (validate_add env none cn = true ↔
      (((env.builder cn).allowed_parents = none ∨
          "root" ∈ ((env.builder cn).allowed_parents.getD [])) ∧
        (env.builder cn).container = true))
    ∧ (∀ (pn : WNode) (ap : List String),
        (env.builder cn).allowed_parents = some ap →
        pn.data.classname ∉ ap →
        validate_add env (some pn) cn = false) := by
  constructor
  · simp only [validate_add]
    cases hap : (env.builder cn).allowed_parents with
    | none =>
      simp [hap]
    | some ap =>
      simp only [hap, Option.getD_some]
      by_cases hr : "root" ∈ ap
      · simp [List.elem_iff, hr]
      · simp [List.elem_iff, hr]
  · intro pn ap hap hmem
    rcases pn with ⟨d, ch⟩
    simp only [validate_add, hap]
    split_ifs with h1 h2 h3 h4
    · rfl
    · rfl
    · rfl
    all_goals
      exfalso
      apply hmem
      rcases hc : ap.contains (WNode.mk d ch).data.classname with - | -
      · rw [hc] at h3
        exact absurd rfl h3
      · exact List.elem_iff.mp hc

/-- Catalog for the C4 scenario of the spec: `Frame` is an unrestricted
container, `Menu` declares an *empty* `allowed_parents` tuple. -/
def envC4 : Env :=
  { builder := fun c =>
      if c == "Menu" then
        { allowed_children := none, maxchildren := none, allowed_parents := some [],
          container := true, tkvar_properties := [], command_properties := [] }
      else
        { allowed_children := none, maxchildren := none, allowed_parents := none,
          container := true, tkvar_properties := [], command_properties := [] }
    mapped := fun _ => true
    jsonValue := fun _ => "" }

/-- A Frame node with no children. -/
def nodeFrameC4 : WNode :=
  WNode.mk
    { classname := "Frame", identifier := "frame1", properties := [],
      manager := "pack", layout := [], container_manager := "pack",
      bindings := [], layout_required := true } []

/-- C4 counterexample: the claim says a classname declaring
`allowed_parents=()` (empty) is accepted at root; but `_validate_add` rejects
it at root (`'root' not in ()`), even though the class is a container. -/
theorem c4_counterexample :
    validate_add envC4 none "Menu" = false
      ∧ (envC4.builder "Menu").allowed_parents = some []
      ∧ (envC4.builder "Menu").container = true := by
  refine ⟨?_, ?_, ?_⟩ <;> decide

/-- Witness for C4: `Menu` (empty `allowed_parents`) is rejected under a
`Frame` parent. -/
theorem c4_root_validation_witness :
    (envC4.builder "Menu").allowed_parents = some []
      ∧ validate_add envC4 (some nodeFrameC4) "Menu" = false :=
  ⟨by decide, (c4_root_validation envC4 "Menu").2 nodeFrameC4 [] (by decide) (by decide)⟩

/-! Duplicate guard (`selection_different_parents`, `evaluate_menu_states`,
`on_tree_item_duplicate`). -/

/-- The recorded-parents loop of `selection_different_parents`: walk the
selection, collecting distinct parent iids, answering `True` as soon as a
second distinct parent appears. -/
def sdpLoop (parentOf : String → String) : List String → List String → Bool
  | _, [] => false
  | acc, s :: rest =>
    let p := parentOf s
    if p ∈ acc then sdpLoop parentOf acc rest
    else if acc.length + 1 > 1 then true
    else sdpLoop parentOf (acc ++ [p]) rest

/-- `selection_different_parents()`: `False` for an empty selection, else the
recorded-parents loop starting from an empty record. -/
def selection_different_parents (parentOf : String → String) (sel : List String) : Bool :=
  match sel with
  | [] => false
  | _ => sdpLoop parentOf [] sel

/-- `evaluate_menu_states()` (main.py): the Duplicate menu state is `disabled`
exactly when the selection spans different parents. -/
def evaluate_menu_states (parentOf : String → String) (sel : List String) : String :=
  if selection_different_parents parentOf sel then "disabled" else "normal"

/-- An application state carrying the document tree and the Duplicate menu
state, as consulted by `on_tree_item_duplicate`. -/
structure DupApp (τ : Type) where
  tree : τ
  menu_state : String

/-- `on_tree_item_duplicate(event)`: when the Duplicate menu is not `normal`,
return immediately without touching the tree; otherwise perform the
copy-and-paste duplication (abstracted as `doDuplicate`). -/
def on_tree_item_duplicate {τ : Type} (doDuplicate : τ → τ) (app : DupApp τ) : DupApp τ :=
  if app.menu_state ≠ "normal" then app
  else { app with tree := doDuplicate app.tree }

theorem sdpLoop_singleton (parentOf : String → String) (p0 : String) :
    ∀ rest, sdpLoop parentOf [p0] rest = true ↔ ∃ s ∈ rest, parentOf s ≠ p0 := by
  intro rest
  induction rest with
  | nil => simp [sdpLoop]
  | cons s rest ih =>
    by_cases h : parentOf s = p0
    · have hstep : sdpLoop parentOf [p0] (s :: rest) = sdpLoop parentOf [p0] rest := by
        simp [sdpLoop, h]
      rw [hstep, ih]
      simp only [List.mem_cons]
      constructor
      · rintro ⟨t, ht, hne⟩
        exact ⟨t, Or.inr ht, hne⟩
      · rintro ⟨t, ht | ht, hne⟩
        · exact absurd (ht ▸ h) hne
        · exact ⟨t, ht, hne⟩
    · simp only [sdpLoop, List.mem_singleton, if_neg h, List.length_singleton]
      simp only [show (1 + 1 > 1) = True by norm_num, if_true, true_iff]
      exact ⟨s, List.mem_cons_self s rest, h⟩

theorem selection_different_parents_iff (parentOf : String → String) (sel : List String) :
    selection_different_parents parentOf sel = true ↔
      ∃ a ∈ sel, ∃ b ∈ sel, parentOf a ≠ parentOf b := by
  cases sel with
  | nil => simp [selection_different_parents]
  | cons s rest =>
    show sdpLoop parentOf [] (s :: rest) = true ↔ _
    have h0 : sdpLoop parentOf [] (s :: rest) = sdpLoop parentOf [parentOf s] rest := by
      simp [sdpLoop]
    rw [h0, sdpLoop_singleton]
    constructor
    · rintro ⟨t, ht, hne⟩
      exact ⟨t, List.mem_cons_of_mem s ht, s, List.mem_cons_self s rest, hne⟩
    · rintro ⟨a, ha, b, hb, hne⟩
      rcases List.mem_cons.mp ha with rfl | ha'
      · rcases List.mem_cons.mp hb with rfl | hb'
        · exact absurd rfl hne
        · exact ⟨b, hb', fun h => hne h.symm⟩
      · by_cases hsa : parentOf a = parentOf s
        · rcases List.mem_cons.mp hb with rfl | hb'
          · exact absurd hsa hne
          · by_cases hsb : parentOf b = parentOf s
            · exact absurd (hsa.trans hsb.symm) hne
            · exact ⟨b, hb', hsb⟩
        · exact ⟨a, ha', hsa⟩

/-- C7: when the current selection spans at least two distinct parents,
`selection_different_parents` reports it, `evaluate_menu_states` disables the
Duplicate menu, and `on_tree_item_duplicate` leaves the application state
(tree included) completely unchanged, whatever the duplication step would have
done. -/
theorem c7_duplicate_noop {τ : Type} (parentOf : String → String) (sel : List String)
    (doDuplicate : τ → τ) (tree : τ)
    (h : ∃ a ∈ sel, ∃ b ∈ sel, parentOf a ≠ parentOf b) :
    selection_different_parents parentOf sel = true
      ∧ on_tree_item_duplicate doDuplicate
          { tree := tree, menu_state := evaluate_menu_states parentOf sel } =
        { tree := tree, menu_state := evaluate_menu_states parentOf sel } := by
  have hsdp : selection_different_parents parentOf sel = true :=
    (selection_different_parents_iff parentOf sel).mpr h
  refine ⟨hsdp, ?_⟩
  simp [on_tree_item_duplicate, evaluate_menu_states, hsdp]

/-- Witness for C7: two selected items under different parents. -/
theorem c7_duplicate_noop_witness :
    selection_different_parents (fun s => if s == "x" then "p1" else "p2") ["x", "y"] = true
      ∧ on_tree_item_duplicate (fun t => t + 1)
          { tree := (0 : Nat),
            menu_state :=
              evaluate_menu_states (fun s => if s == "x" then "p1" else "p2") ["x", "y"] } =
        { tree := (0 : Nat),
          menu_state :=
            evaluate_menu_states (fun s => if s == "x" then "p1" else "p2") ["x", "y"] } :=
  c7_duplicate_noop (fun s => if s == "x" then "p1" else "p2") ["x", "y"] (fun t => t + 1) 0
    ⟨"x", by decide, "y", by decide, by decide⟩

/-! Grid-collision avoidance (`get_available_row`) and the paste transaction
(`_insert_item`, `populate_tree`, `paste_from_clipboard`). -/

/-- Digits-to-number accumulator for the integer parser. -/
def parseNatD : List Char → Nat → Nat
  | [], acc => acc
  | c :: rest, acc => parseNatD rest (acc * 10 + (c.toNat - 48))

/-- Python `int(s)` on decimal strings (optionally signed); non-numeric strings
raise in Python and are mapped to 0 here — the tree editor only ever feeds it
decimal row/column strings. -/
def pyInt (s : String) : Int :=
  match s.data with
  | '-' :: rest => if rest.all Char.isDigit ∧ rest ≠ [] then -(parseNatD rest 0 : Int) else 0
  | l => if l.all Char.isDigit ∧ l ≠ [] then (parseNatD l 0 : Int) else 0

/-- The sibling scan of `get_available_row`: track the maximum same-column row
(`max_row`, started at 0) and whether some sibling occupies the exact
(row, column) of the incoming node (`increase_row`), skipping the sibling whose
identifier equals the incoming node's. -/
def garLoop (newRow newCol newName : String) : List WidgetData → Int → Bool → Int × Bool
  | [], maxRow, inc => (maxRow, inc)
  | sib :: rest, maxRow, inc =>
    if sib.identifier ≠ newName then
      let srow := sib.layout_prop "row"
      let scol := sib.layout_prop "column"
      let maxRow2 := if scol = newCol ∧ pyInt srow > maxRow then pyInt srow else maxRow
      let inc2 := if srow = newRow ∧ scol = newCol then true else inc
      garLoop newRow newCol newName rest maxRow2 inc2
    else garLoop newRow newCol newName rest maxRow inc

/-- `get_available_row(parent, new_item_data)`: when a same-(row, column)
sibling exists, answer `str(max_row + 1)`, else keep the incoming row. -/
def get_available_row (siblings : List WidgetData) (d : WidgetData) : String :=
  let newRow := d.layout_prop "row"
  let newCol := d.layout_prop "column"
  let r := garLoop newRow newCol d.identifier siblings 0 false
  if r.2 then toString (r.1 + 1) else newRow

/-- The destination-container siblings in the same displayed column as the
incoming node (excluding the incoming node itself, recognised by identifier). -/
def sameColSiblings (sibs : List WidgetData) (d : WidgetData) : List WidgetData :=
  sibs.filter (fun s =>
    (s.identifier != d.identifier) && (s.layout_prop "column" == d.layout_prop "column"))

/-- The (clamped-at-0) maximum row among same-column siblings. -/
def sameColMax (sibs : List WidgetData) (d : WidgetData) : Int :=
  ((sameColSiblings sibs d).map (fun s => pyInt (s.layout_prop "row"))).foldl max 0

/-- Some sibling (other than the incoming node) occupies exactly the incoming
(row, column), compared as strings just as the source does. -/
def HasRCCollision (sibs : List WidgetData) (d : WidgetData) : Prop :=
  ∃ s ∈ sibs, s.identifier ≠ d.identifier ∧
    s.layout_prop "row" = d.layout_prop "row" ∧
    s.layout_prop "column" = d.layout_prop "column"

instance (sibs : List WidgetData) (d : WidgetData) : Decidable (HasRCCollision sibs d) := by
  unfold HasRCCollision
  infer_instance

theorem garLoop_fst (nr nc nm : String) :
    ∀ (sibs : List WidgetData) (m : Int) (inc : Bool),
      (garLoop nr nc nm sibs m inc).1 =
        ((sibs.filter (fun s =>
            (s.identifier != nm) && (s.layout_prop "column" == nc))).map
              (fun s => pyInt (s.layout_prop "row"))).foldl max m := by
  intro sibs
  induction sibs with
  | nil => intro m inc; simp [garLoop]
  | cons sib rest ih =>
    intro m inc
    simp only [garLoop]
    by_cases hid : sib.identifier = nm
    · rw [if_neg (not_not_intro hid)]
      have h1 : (sib.identifier != nm) = false := by simp [hid]
      rw [List.filter_cons, h1]
      simp only [Bool.false_and, Bool.false_eq_true, if_false]
      exact ih m inc
    · rw [if_pos hid]
      have h1 : (sib.identifier != nm) = true := bne_iff_ne.mpr hid
      rw [List.filter_cons, h1]
      simp only [Bool.true_and]
      by_cases hcol : sib.layout_prop "column" = nc
      · have h2 : (sib.layout_prop "column" == nc) = true := beq_iff_eq.mpr hcol
        rw [h2]
        simp only [if_true, List.map_cons, List.foldl_cons]
        have hmax : (if sib.layout_prop "column" = nc ∧ pyInt (sib.layout_prop "row") > m
            then pyInt (sib.layout_prop "row") else m) = max m (pyInt (sib.layout_prop "row")) := by
          rcases lt_or_le m (pyInt (sib.layout_prop "row")) with h | h
          · rw [if_pos ⟨hcol, h⟩, max_eq_right (le_of_lt h)]
          · rw [if_neg (fun hc => absurd hc.2 (not_lt.mpr h)), max_eq_left h]
        rw [hmax]
        exact ih _ _
      · have h2 : (sib.layout_prop "column" == nc) = false := beq_eq_false_iff_ne.mpr hcol
        rw [h2]
        simp only [Bool.and_false, Bool.false_eq_true, if_false]
        have hmax : (if sib.layout_prop "column" = nc ∧ pyInt (sib.layout_prop "row") > m
            then pyInt (sib.layout_prop "row") else m) = m :=
          if_neg (fun hc => absurd hc.1 hcol)
        rw [hmax]
        exact ih _ _

theorem garLoop_snd (nr nc nm : String) :
    ∀ (sibs : List WidgetData) (m : Int) (inc : Bool),
      (garLoop nr nc nm sibs m inc).2 =
        (inc || sibs.any (fun s =>
          (s.identifier != nm) && (s.layout_prop "row" == nr)
            && (s.layout_prop "column" == nc))) := by
  intro sibs
  induction sibs with
  | nil => intro m inc; simp [garLoop]
  | cons sib rest ih =>
    intro m inc
    simp only [garLoop, List.any_cons]
    by_cases hid : sib.identifier = nm
    · rw [if_neg (not_not_intro hid)]
      have h1 : (sib.identifier != nm) = false := by simp [hid]
      rw [h1]
      simp only [Bool.false_and, Bool.false_or]
      exact ih m inc
    · rw [if_pos hid]
      have h1 : (sib.identifier != nm) = true := bne_iff_ne.mpr hid
      rw [h1]
      simp only [Bool.true_and]
      by_cases hrc : sib.layout_prop "row" = nr ∧ sib.layout_prop "column" = nc
      · have h2 : ((sib.layout_prop "row" == nr) && (sib.layout_prop "column" == nc)) = true := by
          simp [hrc.1, hrc.2]
        rw [if_pos hrc, h2, ih]
        simp
      · have h2 : ((sib.layout_prop "row" == nr) && (sib.layout_prop "column" == nc)) = false := by
          rcases not_and_or.mp hrc with h | h <;> simp [h]
        rw [if_neg hrc, h2, ih]
        simp

theorem foldl_max_init_le (l : List Int) : ∀ a : Int, a ≤ l.foldl max a := by
  induction l with
  | nil => intro a; simp
  | cons b l ih =>
    intro a
    calc a ≤ max a b := le_max_left a b
      _ ≤ _ := ih _

theorem foldl_max_le {l : List Int} {x : Int} (hx : x ∈ l) :
    ∀ a : Int, x ≤ l.foldl max a := by
  induction l with
  | nil => cases hx
  | cons b l ih =>
    intro a
    rcases List.mem_cons.mp hx with rfl | hx'
    · simp only [List.foldl_cons]
      calc x ≤ max a x := le_max_right a x
        _ ≤ _ := foldl_max_init_le l _
    · simp only [List.foldl_cons]
      exact ih hx' _

theorem foldl_max_mem (l : List Int) : ∀ a : Int,
    l.foldl max a = a ∨ l.foldl max a ∈ l := by
  induction l with
  | nil => intro a; exact Or.inl rfl
  | cons b l ih =>
    intro a
    simp only [List.foldl_cons]
    rcases ih (max a b) with h | h
    · rcases max_choice a b with hm | hm
      · exact Or.inl (h.trans hm)
      · refine Or.inr ?_
        rw [h, hm]
        exact List.mem_cons_self b l
    · exact Or.inr (List.mem_cons_of_mem b h)

/-- A treeview item is addressed by its path of child indices from the virtual
root (`''` of Tk corresponds to the empty path). -/
abbrev TPath := List Nat

/-- The node a non-empty path points at, if any. -/
def nodeAtL : TPath → List WNode → Option WNode
  | [], _ => none
  | [i], f => f[i]?
  | i :: rest, f =>
    match f[i]? with
    | some n => nodeAtL rest n.children
    | none => none

/-- `treeview.get_children(path)`: the ordered children below a path (the whole
forest for the virtual root). -/
def childrenAt (p : TPath) (f : List WNode) : List WNode :=
  match p with
  | [] => f
  | _ =>
    match nodeAtL p f with
    | some n => n.children
    | none => []

/-- `treeview.insert(path, 'end', ...)`: append a node at the end of the
children of the item the path points at. -/
def appendAt : TPath → WNode → List WNode → List WNode
  | [], n, f => f ++ [n]
  | _ :: _, _, [] => []
  | 0 :: rest, n, c :: fs => WNode.mk c.data (appendAt rest n c.children) :: fs
  | (i + 1) :: rest, n, c :: fs => c :: appendAt (i :: rest) n fs

/-- The document store state threaded through paste/load: the forest of nodes
plus the per-classname id counter (`self.counter`). -/
structure TreeState where
  forest : List WNode
  counter : String → Nat

/-- `self.counter[classname] = v`. -/
def counterBump (ctr : String → Nat) (cn : String) (v : Nat) : String → Nat :=
  fun c => if c = cn then v else ctr c

/-- The row-repair step of `_insert_item`: only when the anchor is a real item
and the grid-managed, layout-requiring data carries layout information, and not
when loading from file, the row is rewritten — to `get_available_row` for the
outermost pasted node, and to its own current value otherwise. -/
def insert_item_fix (st : TreeState) (root : TPath) (data : WidgetData)
    (from_file is_first : Bool) : WidgetData :=
  if root ≠ [] ∧ data.has_layout_defined ∧ data.manager = "grid" ∧ data.layout_required then
    if from_file then data
    else
      data.layout_prop_set "row"
        (if is_first
          then get_available_row ((childrenAt root st.forest).map WNode.data) data
          else data.layout_prop "row")
  else data

/-- `_insert_item(root, data, from_file, is_first_widget_pasted)`: grid-row
repair for the outermost pasted node only, then append the item under `root`.
The returned pair is the new state and the (possibly row-adjusted) record
stored in `treedata`. -/
def insert_item (st : TreeState) (root : TPath) (data : WidgetData)
    (from_file is_first : Bool) : TreeState × WidgetData :=
  let data := insert_item_fix st root data from_file is_first
  ({ st with forest := appendAt root (WNode.mk data []) st.forest }, data)

mutual

/-- `populate_tree(master, uidef, wmeta, from_file, is_first_widget_pasted)`:
re-identify the node through `get_unique_id(classname, original_id)`, then —
provided the classname is catalog-mapped — insert it and populate its children
(never as first-pasted).  An unmapped classname raises, which the model
reports as an error string alongside the state reached so far. -/
def populate_tree (env : Env) (p : Prefs) (fuel : Nat) (master : TPath)
    (from_file is_first : Bool) : WNode → TreeState → TreeState × Option String
  | WNode.mk wd wch, st =>
    let cname := wd.classname
    match get_unique_id_from p st.forest cname wd.identifier (st.counter cname) fuel with
    | none => (st, some "id generation did not terminate")
    | some (uniqueid, ctr2) =>
      let st1 : TreeState := { st with counter := counterBump st.counter cname ctr2 }
      let data := { wd with identifier := uniqueid }
      if env.mapped cname then
        let idx := (childrenAt master st1.forest).length
        let st2 := (insert_item st1 master data from_file is_first).1
        populate_children env p fuel (master ++ [idx]) from_file wch st2
      else (st1, some "Class not mapped")

/-- The `for mchild in uidef.widget_children(...)` recursion of
`populate_tree`; an exception from one child aborts the remaining ones. -/
def populate_children (env : Env) (p : Prefs) (fuel : Nat) (master : TPath)
    (from_file : Bool) : List WNode → TreeState → TreeState × Option String
  | [], st => (st, none)
  | c :: rest, st =>
    match populate_tree env p fuel master from_file false c st with
    | (st2, some e) => (st2, some e)
    | (st2, none) => populate_children env p fuel master from_file rest st2

end

/-- `get_children_manager(parent)` with no excluded item: the manager of the
first child not using `place`, if any. -/
def get_children_manager (children : List WidgetData) : Option String :=
  match children.find? (fun c => c.manager != "place") with
  | some c => some c.manager
  | none => none

/-- `update_layout(root, data)`: a pasted top-level node not using `place`
adopts the destination's children-manager (or the preferred default). -/
def update_layout (p : Prefs) (children : List WidgetData) (data : WidgetData) :
    WidgetData :=
  let cm := (get_children_manager children).getD p.default_layout_manager
  if data.manager ≠ "place" ∧ cm ≠ data.manager then { data with manager := cm } else data

/-- The `for wmeta in uidef.widgets()` loop of `paste_from_clipboard`: each
top-level fragment is validated against the anchor; failures are skipped,
successes are layout-reconciled and populated (as first-pasted). -/
def paste_widgets (env : Env) (p : Prefs) (fuel : Nat) (anchor : TPath) :
    List WNode → TreeState → TreeState × Option String
  | [], st => (st, none)
  | w :: rest, st =>
    if validate_add env (nodeAtL anchor st.forest) w.data.classname then
      let data2 := update_layout p ((childrenAt anchor st.forest).map WNode.data) w.data
      match populate_tree env p fuel anchor false true (WNode.mk data2 w.children) st with
      | (st2, some e) => (st2, some e)
      | (st2, none) => paste_widgets env p fuel anchor rest st2
    else paste_widgets env p fuel anchor rest st

/-- `paste_from_clipboard()` reduced to its document effect: an unparsable or
empty/foreign transport (`ET.ParseError` / `tk.TclError`) is caught and
nothing is inserted; otherwise the parsed top-level fragments are pasted in
order at the anchor. -/
def paste_from_clipboard (env : Env) (p : Prefs) (fuel : Nat) (anchor : TPath)
    (parsed : Except Unit (List WNode)) (st : TreeState) : TreeState × Option String :=
  match parsed with
  | .error _ => (st, none)
  | .ok ws => paste_widgets env p fuel anchor ws st

theorem paste_widgets_append (env : Env) (p : Prefs) (fuel : Nat) (anchor : TPath) :
    ∀ (a b : List WNode) (st : TreeState),
      paste_widgets env p fuel anchor (a ++ b) st =
        (match paste_widgets env p fuel anchor a st with
         | (st1, some e) => (st1, some e)
         | (st1, none) => paste_widgets env p fuel anchor b st1) := by
  intro a
  induction a with
  | nil =>
    intro b st
    simp [paste_widgets]
  | cons w a ih =>
    intro b st
    simp only [List.cons_append, paste_widgets]
    by_cases hv : validate_add env (nodeAtL anchor st.forest) w.data.classname = true
    · rw [if_pos hv, if_pos hv]
      rcases hpop : populate_tree env p fuel anchor false true
          (WNode.mk (update_layout p ((childrenAt anchor st.forest).map WNode.data) w.data)
            w.children) st
        with ⟨st2, e⟩
      cases e with
      | some err => rfl
      | none => exact ih b st2
    · rw [if_neg hv, if_neg hv]
      exact ih b st

/-- C8: paste failure semantics.  An unparsable or empty/foreign transport is a
silent no-op (state returned untouched); a top-level fragment failing
structural validation at its turn is skipped, so removing it from the paste
batch changes nothing and the sibling fragments proceed exactly as without it;
a batch whose fragments all fail validation inserts nothing at all. -/
theorem c8_paste_failure_semantics (env : Env) (p : Prefs) (fuel : Nat) (anchor : TPath)
    (st : TreeState) (l1 l2 : List WNode) (w : WNode) :
    paste_from_clipboard env p fuel anchor (Except.error ()) st = (st, none)
    ∧ ((paste_widgets env p fuel anchor l1 st).2 = none →
        validate_add env
          (nodeAtL anchor (paste_widgets env p fuel anchor l1 st).1.forest)
          w.data.classname = false →
        paste_widgets env p fuel anchor (l1 ++ w :: l2) st =
          paste_widgets env p fuel anchor (l1 ++ l2) st)
    ∧ ((∀ w2 ∈ l1, validate_add env (nodeAtL anchor st.forest) w2.data.classname = false) →
        paste_widgets env p fuel anchor l1 st = (st, none)) := by
  refine ⟨rfl, ?_, ?_⟩
  · intro hok hval
    rw [paste_widgets_append, paste_widgets_append]
    rcases hp : paste_widgets env p fuel anchor l1 st with ⟨st1, e⟩
    rw [hp] at hok hval
    simp only at hok hval
    cases e with
    | some err => cases hok
    | none =>
      simp only [paste_widgets]
      have hcond : ¬ (validate_add env (nodeAtL anchor st1.forest) w.data.classname = true) := by
        rw [hval]
        simp
      rw [if_neg hcond]
  · intro hall
    induction l1 with
    | nil => rfl
    | cons w2 l1 ih =>
      have h2 := hall w2 (List.mem_cons_self w2 l1)
      have hcond : ¬ (validate_add env (nodeAtL anchor st.forest) w2.data.classname = true) := by
        rw [h2]
        simp
      show paste_widgets env p fuel anchor (w2 :: l1) st = (st, none)
      simp only [paste_widgets]
      rw [if_neg hcond]
      exact ih (fun w3 h3 => hall w3 (List.mem_cons_of_mem w2 h3))

/-- The empty document store. -/
def stEmpty : TreeState := ⟨[], fun _ => 0⟩

/-- A `Menu` fragment (empty `allowed_parents`, rejected everywhere by
`envC4`'s validation at root with a parent). -/
def menuNodeC8 : WNode :=
  WNode.mk
    { classname := "Menu", identifier := "menu1", properties := [],
      manager := "pack", layout := [], container_manager := "pack",
      bindings := [], layout_required := true } []

/-- Witness for C8: pasting a single always-invalid `Menu` fragment at the root
anchor equals pasting nothing. -/
theorem c8_paste_failure_semantics_witness :
    paste_widgets envC4 ⟨false, false, "pack"⟩ 1 [] ([] ++ [menuNodeC8]) stEmpty =
      paste_widgets envC4 ⟨false, false, "pack"⟩ 1 [] ([] ++ []) stEmpty :=
  (c8_paste_failure_semantics envC4 ⟨false, false, "pack"⟩ 1 [] stEmpty [] []
    menuNodeC8).2.1 rfl (by decide)

theorem lookupD_setKey_map (k v k' d : String) :
    ∀ m : List (String × String),
      lookupD (m.map (fun kv => if kv.1 == k then (k, v) else kv)) k' d =
        (if k' = k then lookupD (m.map (fun kv => if kv.1 == k then (k, v) else kv)) k' d
         else lookupD m k' d) := by
  intro m
  by_cases hk : k' = k
  · rw [if_pos hk]
  · rw [if_neg hk]
    induction m with
    | nil => rfl
    | cons a m ih =>
      by_cases ha : a.1 = k
      · have hb : (a.1 == k) = true := beq_iff_eq.mpr ha
        have hk2 : (k == k') = false := beq_eq_false_iff_ne.mpr (fun h => hk h.symm)
        simp only [List.map_cons, hb, if_true, lookupD, List.find?]
        rw [show ((k, v).1 == k') = false from hk2,
          show (a.1 == k') = false from by
            rw [ha]; exact hk2]
        exact ih
      · have hb : (a.1 == k) = false := beq_eq_false_iff_ne.mpr ha
        simp only [List.map_cons, hb, Bool.false_eq_true, if_false, lookupD, List.find?]
        cases hp : (a.1 == k') with
        | true => rfl
        | false => exact ih

theorem lookupD_setKey_self (m : List (String × String)) (k v d : String) :
    lookupD (setKey m k v) k d = v := by
  unfold setKey
  by_cases h : m.any (fun kv => kv.1 == k) = true
  · rw [if_pos h]
    induction m with
    | nil => cases h
    | cons a m ih =>
      by_cases ha : a.1 = k
      · have hb : (a.1 == k) = true := beq_iff_eq.mpr ha
        simp only [List.map_cons, hb, if_true, lookupD, List.find?, beq_self_eq_true]
      · have hb : (a.1 == k) = false := beq_eq_false_iff_ne.mpr ha
        have h' : m.any (fun kv => kv.1 == k) = true := by
          simpa [List.any_cons, hb] using h
        simp only [List.map_cons, hb, Bool.false_eq_true, if_false, lookupD, List.find?, hb]
        exact ih h'
  · rw [if_neg h]
    have h' : ∀ kv ∈ m, (kv.1 == k) = false := by
      intro kv hkv
      cases hx : (kv.1 == k) with
      | false => rfl
      | true => exact absurd (List.any_eq_true.mpr ⟨kv, hkv, hx⟩) h
    clear h
    induction m with
    | nil => simp [lookupD, List.find?]
    | cons a m ih =>
      have ha := h' a (List.mem_cons_self a m)
      simp only [List.cons_append, lookupD, List.find?, ha]
      exact ih (fun kv hkv => h' kv (List.mem_cons_of_mem a hkv))

theorem lookupD_setKey_other (m : List (String × String)) (k v k' d : String)
    (h : k' ≠ k) : lookupD (setKey m k v) k' d = lookupD m k' d := by
  unfold setKey
  by_cases hany : m.any (fun kv => kv.1 == k) = true
  · rw [if_pos hany]
    rw [lookupD_setKey_map k v k' d m, if_neg h]
  · rw [if_neg hany]
    induction m with
    | nil =>
      simp only [List.nil_append, lookupD, List.find?,
        show (k == k') = false from beq_eq_false_iff_ne.mpr (fun hh => h hh.symm)]
    | cons a m ih =>
      have hany' : ¬ m.any (fun kv => kv.1 == k) = true := by
        intro hx
        exact hany (by simp [List.any_cons, hx])
      simp only [List.cons_append, lookupD, List.find?]
      cases hp : (a.1 == k') with
      | true => rfl
      | false => exact ih hany'

/-- C5: grid-collision avoidance on paste/duplicate.  `get_available_row`
answers `str(max + 1)` of the same-column siblings' maximum row exactly when a
sibling (other than the pasted node) occupies the same (row, column), and the
incoming row otherwise; the maximum bounds every same-column sibling row and,
for non-negative rows, is attained by one of them.  `_insert_item` leaves the
stored row untouched for non-outermost nodes (`is_first_widget_pasted=False`)
and never touches the stored column. -/
theorem c5_grid_collision_avoidance :
    (∀ (sibs : List WidgetData) (d : WidgetData),
      get_available_row sibs d =
        if HasRCCollision sibs d then toString (sameColMax sibs d + 1)
        else d.layout_prop "row")
    ∧ (∀ (sibs : List WidgetData) (d : WidgetData),
        ∀ s ∈ sameColSiblings sibs d,
          pyInt (s.layout_prop "row") ≤ sameColMax sibs d)
    ∧ (∀ (sibs : List WidgetData) (d : WidgetData),
        (∀ s ∈ sibs, 0 ≤ pyInt (s.layout_prop "row")) → HasRCCollision sibs d →
        ∃ s ∈ sameColSiblings sibs d,
          pyInt (s.layout_prop "row") = sameColMax sibs d)
    ∧ (∀ (st : TreeState) (root : TPath) (dd : WidgetData) (ff : Bool),
        ((insert_item st root dd ff false).2).layout_prop "row" = dd.layout_prop "row")
    ∧ (∀ (st : TreeState) (root : TPath) (dd : WidgetData) (ff isf : Bool),
        ((insert_item st root dd ff isf).2).layout_prop "column" =
          dd.layout_prop "column") := by
  have hcoll : ∀ (sibs : List WidgetData) (d : WidgetData),
      (sibs.any (fun s =>
        (s.identifier != d.identifier) && (s.layout_prop "row" == d.layout_prop "row")
          && (s.layout_prop "column" == d.layout_prop "column"))) = true ↔
      HasRCCollision sibs d := by
    intro sibs d
    rw [List.any_eq_true]
    unfold HasRCCollision
    constructor
    · rintro ⟨s, hs, hb⟩
      simp only [Bool.and_eq_true, bne_iff_ne, beq_iff_eq] at hb
      exact ⟨s, hs, hb.1.1, hb.1.2, hb.2⟩
    · rintro ⟨s, hs, h1, h2, h3⟩
      refine ⟨s, hs, ?_⟩
      simp only [Bool.and_eq_true, bne_iff_ne, beq_iff_eq]
      exact ⟨⟨h1, h2⟩, h3⟩
  refine ⟨?_, ?_, ?_, ?_, ?_⟩
  · intro sibs d
    show (if (garLoop (d.layout_prop "row") (d.layout_prop "column") d.identifier
          sibs 0 false).2 = true
        then toString ((garLoop (d.layout_prop "row") (d.layout_prop "column")
          d.identifier sibs 0 false).1 + 1)
        else d.layout_prop "row") = _
    rw [garLoop_snd, garLoop_fst]
    simp only [Bool.false_or]
    by_cases hc : HasRCCollision sibs d
    · rw [if_pos ((hcoll sibs d).mpr hc), if_pos hc]
      rfl
    · rw [if_neg (fun hx => hc ((hcoll sibs d).mp hx)), if_neg hc]
  · intro sibs d s hs
    exact foldl_max_le (List.mem_map.mpr ⟨s, hs, rfl⟩) 0
  · intro sibs d hnn hc
    rcases hc with ⟨s0, hs0, hid0, hrow0, hcol0⟩
    have hs0' : s0 ∈ sameColSiblings sibs d := by
      unfold sameColSiblings
      rw [List.mem_filter]
      refine ⟨hs0, ?_⟩
      simp only [Bool.and_eq_true, bne_iff_ne, beq_iff_eq]
      exact ⟨hid0, hcol0⟩
    rcases foldl_max_mem
        ((sameColSiblings sibs d).map (fun s => pyInt (s.layout_prop "row"))) 0 with h | h
    · refine ⟨s0, hs0', ?_⟩
      have hle : pyInt (s0.layout_prop "row") ≤ sameColMax sibs d :=
        foldl_max_le (List.mem_map.mpr ⟨s0, hs0', rfl⟩) 0
      have hge : 0 ≤ pyInt (s0.layout_prop "row") := hnn s0 hs0
      unfold sameColMax at *
      omega
    · rcases List.mem_map.mp h with ⟨s, hsmem, hseq⟩
      exact ⟨s, hsmem, hseq⟩
  · intro st root dd ff
    show (insert_item_fix st root dd ff false).layout_prop "row" = dd.layout_prop "row"
    unfold insert_item_fix
    by_cases h1 : root ≠ [] ∧ dd.has_layout_defined = true ∧ dd.manager = "grid"
        ∧ dd.layout_required = true
    · rw [if_pos h1]
      by_cases h2 : ff = true
      · rw [if_pos h2]
      · rw [if_neg h2, if_neg (by simp : ¬ (false : Bool) = true)]
        show lookupD (setKey dd.layout "row" (lookupD dd.layout "row" "")) "row" "" =
          lookupD dd.layout "row" ""
        exact lookupD_setKey_self dd.layout "row" (lookupD dd.layout "row" "") ""
    · rw [if_neg h1]
  · intro st root dd ff isf
    show (insert_item_fix st root dd ff isf).layout_prop "column" = dd.layout_prop "column"
    unfold insert_item_fix
    by_cases h1 : root ≠ [] ∧ dd.has_layout_defined = true ∧ dd.manager = "grid"
        ∧ dd.layout_required = true
    · rw [if_pos h1]
      by_cases h2 : ff = true
      · rw [if_pos h2]
      · rw [if_neg h2]
        show lookupD (setKey dd.layout "row" _) "column" "" = lookupD dd.layout "column" ""
        exact lookupD_setKey_other dd.layout "row" _ "column" "" (by decide)
    · rw [if_neg h1]

/-- Witness for C5: a sibling at (row 2, column 0) collides with an incoming
node at (row 2, column 0); the maximum same-column row is attained. -/
theorem c5_grid_collision_avoidance_witness :
    ∃ s ∈ sameColSiblings
        [{ classname := "ttk.Button", identifier := "a",
           properties := [], manager := "grid",
           layout := [("row", "2"), ("column", "0")], container_manager := "pack",
           bindings := [], layout_required := true }]
        { classname := "ttk.Button", identifier := "b",
          properties := [], manager := "grid",
          layout := [("row", "2"), ("column", "0")], container_manager := "pack",
          bindings := [], layout_required := true },
      pyInt (s.layout_prop "row") =
        sameColMax
          [{ classname := "ttk.Button", identifier := "a",
             properties := [], manager := "grid",
             layout := [("row", "2"), ("column", "0")], container_manager := "pack",
             bindings := [], layout_required := true }]
          { classname := "ttk.Button", identifier := "b",
            properties := [], manager := "grid",
            layout := [("row", "2"), ("column", "0")], container_manager := "pack",
            bindings := [], layout_required := true } :=
  c5_grid_collision_avoidance.2.2.1
    [{ classname := "ttk.Button", identifier := "a",
       properties := [], manager := "grid",
       layout := [("row", "2"), ("column", "0")], container_manager := "pack",
       bindings := [], layout_required := true }]
    { classname := "ttk.Button", identifier := "b",
      properties := [], manager := "grid",
      layout := [("row", "2"), ("column", "0")], container_manager := "pack",
      bindings := [], layout_required := true }
    (by decide) (by decide)

/-! Container-manager switch (`change_container_manager`). -/

/-- One child of the container being switched: its `treedata` record plus its
displayed treeview row `(text, row, column)` values. -/
structure CChild where
  data : WidgetData
  display : String × String × String
deriving DecidableEq, Repr

/-- The per-child update of `change_container_manager` for a child being
switched: the manager is overwritten; when switching to `grid` the layout row
(assigned sequentially) and column 0 are stored and displayed, otherwise the
displayed row/column are cleared (the stored layout is left alone). -/
def ccmApply (nm : String) (row : Nat) (c : CChild) : CChild :=
  if nm = "grid" then
    let d2 := { c.data with
                manager := nm,
                layout := setKey (setKey c.data.layout "row" (toString row)) "column" "0" }
    { data := d2, display := (c.display.1, toString row, "0") }
  else
    { data := { c.data with manager := nm }, display := (c.display.1, "", "") }

/-- The `for child in children` loop of `change_container_manager`: a child is
switched iff it does not use `place` or is the currently edited item (`i =
item`); `gridrow` advances only when assigning grid rows. -/
def ccm_children (nm : String) (item : Nat) : List CChild → Nat → Nat → List CChild
  | [], _, _ => []
  | c :: rest, i, gridrow =>
    if c.data.manager ≠ "place" ∨ i = item then
      if nm = "grid" then ccmApply nm gridrow c :: ccm_children nm item rest (i + 1) (gridrow + 1)
      else ccmApply nm gridrow c :: ccm_children nm item rest (i + 1) gridrow
    else c :: ccm_children nm item rest (i + 1) gridrow

/-- The state `change_container_manager` works on: the parent container's
`container_manager`, its children, and counters for the `set_changed` and
`draw_widget` notifications fired. -/
structure CCMState where
  container_manager : String
  children : List CChild
  changed_count : Nat
  redraw_count : Nat

/-- `change_container_manager(new_manager)`: nothing happens without a parent;
otherwise the parent's container manager is updated, every child is visited
once in order, and exactly one redraw and one changed notification fire for
the whole batch. -/
def change_container_manager (st : CCMState) (hasParent : Bool) (item : Nat)
    (nm : String) : CCMState :=
  if hasParent then
    { container_manager := nm,
      children := ccm_children nm item st.children 0 0,
      changed_count := st.changed_count + 1,
      redraw_count := st.redraw_count + 1 }
  else st

/-- The number of switched children among the first `j` children, starting at
absolute index `i`. -/
def countSw (item : Nat) : List CChild → Nat → Nat → Nat
  | _, _, 0 => 0
  | [], _, _ => 0
  | c :: rest, i, j + 1 =>
    (if c.data.manager ≠ "place" ∨ i = item then 1 else 0) + countSw item rest (i + 1) j

theorem ccmApply_row_irrelevant {nm : String} (h : nm ≠ "grid") (r r' : Nat) (c : CChild) :
    ccmApply nm r c = ccmApply nm r' c := by
  unfold ccmApply
  rw [if_neg h, if_neg h]

theorem ccm_children_length (nm : String) (item : Nat) :
    ∀ (l : List CChild) (i g : Nat), (ccm_children nm item l i g).length = l.length := by
  intro l
  induction l with
  | nil => intro i g; rfl
  | cons c rest ih =>
    intro i g
    unfold ccm_children
    split_ifs <;> simp [ih]

theorem ccm_children_get (nm : String) (item : Nat) :
    ∀ (l : List CChild) (i g j : Nat) (c : CChild), l[j]? = some c →
      (ccm_children nm item l i g)[j]? =
        some (if c.data.manager ≠ "place" ∨ i + j = item
              then ccmApply nm (g + countSw item l i j) c
              else c) := by
  intro l
  induction l with
  | nil => intro i g j c h; cases h
  | cons a l ih =>
    intro i g j c h
    cases j with
    | zero =>
      have hac : a = c := by simpa using h
      subst hac
      by_cases hsw : a.data.manager ≠ "place" ∨ i = item
      · have hsw0 : a.data.manager ≠ "place" ∨ i + 0 = item := by simpa using hsw
        unfold ccm_children
        rw [if_pos hsw]
        by_cases hg : nm = "grid"
        · rw [if_pos hg]
          simp only [List.getElem?_cons_zero, countSw, Nat.add_zero, Option.some.injEq]
          rw [if_pos hsw]
        · rw [if_neg hg]
          simp only [List.getElem?_cons_zero, countSw, Nat.add_zero, Option.some.injEq]
          rw [if_pos hsw]
      · have hsw0 : ¬ (a.data.manager ≠ "place" ∨ i + 0 = item) := by simpa using hsw
        unfold ccm_children
        rw [if_neg hsw]
        simp only [List.getElem?_cons_zero, Option.some.injEq]
        rw [if_neg hsw0]
    | succ j =>
      have h' : l[j]? = some c := by simpa using h
      have hcount : countSw item (a :: l) i (j + 1) =
          (if a.data.manager ≠ "place" ∨ i = item then 1 else 0) + countSw item l (i + 1) j := by
        rfl
      have hidx : (i + 1) + j = i + (j + 1) := by omega
      by_cases hsw : a.data.manager ≠ "place" ∨ i = item
      · rw [if_pos hsw] at hcount
        unfold ccm_children
        rw [if_pos hsw]
        by_cases hg : nm = "grid"
        · rw [if_pos hg]
          have := ih (i + 1) (g + 1) j c h'
          rw [List.getElem?_cons_succ, this, hidx, hcount]
          have harith : g + 1 + countSw item l (i + 1) j =
              g + (1 + countSw item l (i + 1) j) := by omega
          rw [harith]
        · rw [if_neg hg]
          have := ih (i + 1) g j c h'
          rw [List.getElem?_cons_succ, this, hidx, hcount]
          by_cases hsw2 : c.data.manager ≠ "place" ∨ i + (j + 1) = item
          · rw [if_pos hsw2, if_pos hsw2]
            rw [ccmApply_row_irrelevant hg (g + countSw item l (i + 1) j)
              (g + (1 + countSw item l (i + 1) j)) c]
          · rw [if_neg hsw2, if_neg hsw2]
      · rw [if_neg hsw] at hcount
        unfold ccm_children
        rw [if_neg hsw]
        have := ih (i + 1) g j c h'
        rw [List.getElem?_cons_succ, this, hidx]
        rw [hcount]
        simp

/-- C6 (amended): with a parent present, `change_container_manager` updates the
parent's container manager; every child not using `place` — and additionally
the currently edited child even if it uses `place` — is switched to the new
manager, switched children receiving (for `grid`) sequential rows equal to the
number of switched children before them, column 0, in pre-switch order, or
(for other managers) cleared displayed row/column; all other `place` children
are untouched; the batch fires exactly one changed notification and one
redraw, and without a parent the state is completely unchanged. -/
theorem c6_container_manager_switch (st : CCMState) (item : Nat) (nm : String) :
    (change_container_manager st true item nm).container_manager = nm
    ∧ (change_container_manager st true item nm).children.length = st.children.length
    ∧ (∀ j c, st.children[j]? = some c → c.data.manager = "place" → j ≠ item →
        (change_container_manager st true item nm).children[j]? = some c)
    ∧ (∀ j c, st.children[j]? = some c → (c.data.manager ≠ "place" ∨ j = item) →
        (change_container_manager st true item nm).children[j]? =
          some (ccmApply nm (countSw item st.children 0 j) c))
    ∧ (change_container_manager st true item nm).changed_count = st.changed_count + 1
    ∧ (change_container_manager st true item nm).redraw_count = st.redraw_count + 1
    ∧ change_container_manager st false item nm = st := by
  refine ⟨rfl, ?_, ?_, ?_, rfl, rfl, rfl⟩
  · exact ccm_children_length nm item st.children 0 0
  · intro j c hj hplace hitem
    have := ccm_children_get nm item st.children 0 0 j c hj
    rw [show (change_container_manager st true item nm).children =
      ccm_children nm item st.children 0 0 from rfl, this]
    rw [if_neg (by simpa [hplace] using fun h => hitem h)]
  · intro j c hj hsw
    have := ccm_children_get nm item st.children 0 0 j c hj
    rw [show (change_container_manager st true item nm).children =
      ccm_children nm item st.children 0 0 from rfl, this]
    rw [if_pos (by simpa using hsw)]
    simp

/-- The widget record of a `place`-managed label. -/
def placeDataC6 : WidgetData :=
  { classname := "ttk.Label"
    identifier := "label1"
    properties := []
    manager := "place"
    layout := []
    container_manager := "pack"
    bindings := []
    layout_required := true }

/-- A `place`-managed child that is also the currently edited item. -/
def placeChildC6 : CChild :=
  { data := placeDataC6, display := ("ttk.Label", "", "") }

/-- C6 counterexample: the claim says children using `place` are left
unmodified; but when the `place` child is the currently edited item, the
switch changes its manager (here to `grid`, assigning it row 0). -/
theorem c6_counterexample :
    placeChildC6.data.manager = "place"
      ∧ ((change_container_manager ⟨"pack", [placeChildC6], 0, 0⟩ true 0 "grid").children[0]?.map
          (fun c => c.data.manager)) = some "grid" := by
  constructor
  · decide
  · decide

/-- The widget record of an ordinary pack-managed button. -/
def packDataC6 : WidgetData :=
  { classname := "ttk.Button"
    identifier := "b1"
    properties := []
    manager := "pack"
    layout := []
    container_manager := "pack"
    bindings := []
    layout_required := true }

/-- A pack-managed child row. -/
def packChildC6 : CChild :=
  { data := packDataC6, display := ("ttk.Button", "", "") }

/-- Witness for C6: a single pack child switched to grid receives the
sequentially assigned row. -/
theorem c6_container_manager_switch_witness :
    (change_container_manager ⟨"pack", [packChildC6], 0, 0⟩ true 0 "grid").children[0]? =
      some (ccmApply "grid" (countSw 0 [packChildC6] 0 0) packChildC6) :=
  (c6_container_manager_switch ⟨"pack", [packChildC6], 0, 0⟩ 0 "grid").2.2.2.1 0
    packChildC6 (by decide) (by decide)

/-! `ToplevelFramePreview.configure` (`widgets/toplevelframe.py`). -/

/-- The `tl_attrs` dictionary entries consulted by `configure`: recorded
minsize/maxsize (width, height) pairs and the `resizable` string. -/
structure TLAttrs where
  minsize : Option (Int × Int)
  maxsize : Option (Int × Int)
  resizable : Option String
deriving DecidableEq, Repr

/-- The preview frame's state: its `tl_attrs` plus the `_w_set`/`_h_set`
first-change flags. -/
structure TLState where
  tl_attrs : TLAttrs
  w_set : Bool
  h_set : Bool
deriving DecidableEq, Repr

/-- The merged `cnf` mapping restricted to the keys `configure` inspects. -/
structure Cnf where
  width : Option Int
  height : Option Int
  menu : Option String
deriving DecidableEq, Repr

/-- The cumulative `remove` flag of the `width` block: below `minsize[0]`,
above `maxsize[0]`, or a second change while the (non-empty) `resizable` entry
marks the horizontal axis non-resizable in the external `TKToplevel.RESIZABLE`
table `rz`. -/
def tlf_remove_w (rz : String → Bool × Bool) (st : TLState) (value : Int) : Bool :=
  (match st.tl_attrs.minsize with
   | some ms => decide (value < ms.1)
   | none => false)
  || (match st.tl_attrs.maxsize with
      | some ms => decide (value > ms.1)
      | none => false)
  || (if st.w_set then
        (match st.tl_attrs.resizable with
         | some r => if r ≠ "" ∧ (rz r).1 = false then true else false
         | none => false)
      else false)

/-- The cumulative `remove` flag of the `height` block (second components,
`_h_set`). -/
def tlf_remove_h (rz : String → Bool × Bool) (st : TLState) (value : Int) : Bool :=
  (match st.tl_attrs.minsize with
   | some ms => decide (value < ms.2)
   | none => false)
  || (match st.tl_attrs.maxsize with
      | some ms => decide (value > ms.2)
      | none => false)
  || (if st.h_set then
        (match st.tl_attrs.resizable with
         | some r => if r ≠ "" ∧ (rz r).2 = false then true else false
         | none => false)
      else false)

/-- The `width` block of `ToplevelFramePreview.configure`: pop the key when
the remove flag is set, otherwise keep it and mark `_w_set`. -/
def tlf_width_step (rz : String → Bool × Bool) (st : TLState) (cnf : Cnf) :
    Cnf × TLState :=
  match cnf.width with
  | none => (cnf, st)
  | some value =>
    if tlf_remove_w rz st value then ({ cnf with width := none }, st)
    else (cnf, { st with w_set := true })

/-- The `height` block of `ToplevelFramePreview.configure`. -/
def tlf_height_step (rz : String → Bool × Bool) (st : TLState) (cnf : Cnf) :
    Cnf × TLState :=
  match cnf.height with
  | none => (cnf, st)
  | some value =>
    if tlf_remove_h rz st value then ({ cnf with height := none }, st)
    else (cnf, { st with h_set := true })

/-- `ToplevelFramePreview.configure(cnf)`: width filter, then height filter,
then the `menu` key is always dropped, and the surviving `cnf` is delegated to
`Frame.configure`. -/
def tlf_configure (rz : String → Bool × Bool) (st : TLState) (cnf : Cnf) :
    Cnf × TLState :=
  let r1 := tlf_width_step rz st cnf
  let r2 := tlf_height_step rz r1.2 r1.1
  ({ r2.1 with menu := none }, r2.2)

theorem tlf_remove_w_false (rz : String → Bool × Bool) (st : TLState) (value : Int)
    (h : tlf_remove_w rz st value = false) :
    (∀ ms, st.tl_attrs.minsize = some ms → ms.1 ≤ value)
    ∧ (∀ ms, st.tl_attrs.maxsize = some ms → value ≤ ms.1)
    ∧ (st.w_set = true → ∀ r, st.tl_attrs.resizable = some r → r ≠ "" →
        (rz r).1 = true) := by
  unfold tlf_remove_w at h
  simp only [Bool.or_eq_false_iff] at h
  obtain ⟨⟨h1, h2⟩, h3⟩ := h
  refine ⟨?_, ?_, ?_⟩
  · intro ms hms
    rw [hms] at h1
    simp only [decide_eq_false_iff_not, not_lt] at h1
    exact h1
  · intro ms hms
    rw [hms] at h2
    simp only [decide_eq_false_iff_not, not_lt, gt_iff_lt] at h2
    exact h2
  · intro hws r hr hrne
    rw [hws, hr, if_pos rfl] at h3
    cases hx : (rz r).1 with
    | true => rfl
    | false =>
      exfalso
      have hmt : (match some r with
          | some r => if r ≠ "" ∧ (rz r).1 = false then true else false
          | none => false) = true := by
        show (if r ≠ "" ∧ (rz r).1 = false then true else false) = true
        rw [if_pos ⟨hrne, hx⟩]
      exact absurd (hmt.symm.trans h3) (by decide)

theorem tlf_remove_h_false (rz : String → Bool × Bool) (st : TLState) (value : Int)
    (h : tlf_remove_h rz st value = false) :
    (∀ ms, st.tl_attrs.minsize = some ms → ms.2 ≤ value)
    ∧ (∀ ms, st.tl_attrs.maxsize = some ms → value ≤ ms.2)
    ∧ (st.h_set = true → ∀ r, st.tl_attrs.resizable = some r → r ≠ "" →
        (rz r).2 = true) := by
  unfold tlf_remove_h at h
  simp only [Bool.or_eq_false_iff] at h
  obtain ⟨⟨h1, h2⟩, h3⟩ := h
  refine ⟨?_, ?_, ?_⟩
  · intro ms hms
    rw [hms] at h1
    simp only [decide_eq_false_iff_not, not_lt] at h1
    exact h1
  · intro ms hms
    rw [hms] at h2
    simp only [decide_eq_false_iff_not, not_lt, gt_iff_lt] at h2
    exact h2
  · intro hhs r hr hrne
    rw [hhs, hr, if_pos rfl] at h3
    cases hx : (rz r).2 with
    | true => rfl
    | false =>
      exfalso
      have hmt : (match some r with
          | some r => if r ≠ "" ∧ (rz r).2 = false then true else false
          | none => false) = true := by
        show (if r ≠ "" ∧ (rz r).2 = false then true else false) = true
        rw [if_pos ⟨hrne, hx⟩]
      exact absurd (hmt.symm.trans h3) (by decide)

theorem tlf_width_step_frame (rz : String → Bool × Bool) (st : TLState) (cnf : Cnf) :
    (tlf_width_step rz st cnf).2.tl_attrs = st.tl_attrs
    ∧ (tlf_width_step rz st cnf).2.h_set = st.h_set
    ∧ (tlf_width_step rz st cnf).1.height = cnf.height
    ∧ (tlf_width_step rz st cnf).1.menu = cnf.menu := by
  unfold tlf_width_step
  rcases hw : cnf.width with - | value
  · exact ⟨rfl, rfl, rfl, rfl⟩
  · simp only []
    split_ifs <;> exact ⟨rfl, rfl, rfl, rfl⟩

theorem tlf_height_step_frame (rz : String → Bool × Bool) (st : TLState) (cnf : Cnf) :
    (tlf_height_step rz st cnf).1.width = cnf.width
    ∧ (tlf_height_step rz st cnf).1.menu = cnf.menu := by
  unfold tlf_height_step
  rcases hh : cnf.height with - | value
  · exact ⟨rfl, rfl⟩
  · simp only []
    split_ifs <;> exact ⟨rfl, rfl⟩

theorem tlf_width_step_sound (rz : String → Bool × Bool) (st : TLState) (cnf : Cnf) :
    ∀ w, (tlf_width_step rz st cnf).1.width = some w →
      cnf.width = some w
      ∧ (∀ ms, st.tl_attrs.minsize = some ms → ms.1 ≤ w)
      ∧ (∀ ms, st.tl_attrs.maxsize = some ms → w ≤ ms.1)
      ∧ (st.w_set = true → ∀ r, st.tl_attrs.resizable = some r → r ≠ "" →
          (rz r).1 = true) := by
  intro w hsurv
  unfold tlf_width_step at hsurv
  split at hsurv
  · rename_i hnone
    rw [hnone] at hsurv
    cases hsurv
  · rename_i value hval
    split at hsurv
    · simp at hsurv
    · rename_i hrm
      have hrm2 : tlf_remove_w rz st value = false := by
        cases hx : tlf_remove_w rz st value with
        | false => rfl
        | true => exact absurd hx hrm
      have hvw : value = w := by
        rw [hval] at hsurv
        simpa using hsurv
      subst hvw
      exact ⟨hval, tlf_remove_w_false rz st value hrm2⟩

theorem tlf_height_step_sound (rz : String → Bool × Bool) (st : TLState) (cnf : Cnf) :
    ∀ h, (tlf_height_step rz st cnf).1.height = some h →
      cnf.height = some h
      ∧ (∀ ms, st.tl_attrs.minsize = some ms → ms.2 ≤ h)
      ∧ (∀ ms, st.tl_attrs.maxsize = some ms → h ≤ ms.2)
      ∧ (st.h_set = true → ∀ r, st.tl_attrs.resizable = some r → r ≠ "" →
          (rz r).2 = true) := by
  intro h hsurv
  unfold tlf_height_step at hsurv
  split at hsurv
  · rename_i hnone
    rw [hnone] at hsurv
    cases hsurv
  · rename_i value hval
    split at hsurv
    · simp at hsurv
    · rename_i hrm
      have hrm2 : tlf_remove_h rz st value = false := by
        cases hx : tlf_remove_h rz st value with
        | false => rfl
        | true => exact absurd hx hrm
      have hvw : value = h := by
        rw [hval] at hsurv
        simpa using hsurv
      subst hvw
      exact ⟨hval, tlf_remove_h_false rz st value hrm2⟩

/-- C10: `ToplevelFramePreview.configure` never forwards a `menu` key; a
`width` that survives to `Frame.configure` is the requested one and respects
the recorded `minsize`/`maxsize` bounds for the horizontal axis, and — once a
width was already applied (`_w_set`) and a non-empty `resizable` entry marks
the axis non-resizable — no second width survives; symmetrically for
`height`.  An offending key is dropped, never altered. -/
theorem c10_toplevel_configure (rz : String → Bool × Bool) (st : TLState) (cnf : Cnf) :
    ((tlf_configure rz st cnf).1.menu = none)
    ∧ (∀ w, (tlf_configure rz st cnf).1.width = some w →
        cnf.width = some w
        ∧ (∀ ms, st.tl_attrs.minsize = some ms → ms.1 ≤ w)
        ∧ (∀ ms, st.tl_attrs.maxsize = some ms → w ≤ ms.1)
        ∧ (st.w_set = true → ∀ r, st.tl_attrs.resizable = some r → r ≠ "" →
            (rz r).1 = true))
    ∧ (∀ h, (tlf_configure rz st cnf).1.height = some h →
        cnf.height = some h
        ∧ (∀ ms, st.tl_attrs.minsize = some ms → ms.2 ≤ h)
        ∧ (∀ ms, st.tl_attrs.maxsize = some ms → h ≤ ms.2)
        ∧ (st.h_set = true → ∀ r, st.tl_attrs.resizable = some r → r ≠ "" →
            (rz r).2 = true)) := by
  refine ⟨rfl, ?_, ?_⟩
  · intro w hsurv
    have hsurv2 : (tlf_width_step rz st cnf).1.width = some w := by
      have hkeep := (tlf_height_step_frame rz (tlf_width_step rz st cnf).2
        (tlf_width_step rz st cnf).1).1
      have : (tlf_configure rz st cnf).1.width =
          (tlf_height_step rz (tlf_width_step rz st cnf).2
            (tlf_width_step rz st cnf).1).1.width := rfl
      rw [this, hkeep] at hsurv
      exact hsurv
    exact tlf_width_step_sound rz st cnf w hsurv2
  · intro h hsurv
    have hsurv2 : (tlf_height_step rz (tlf_width_step rz st cnf).2
        (tlf_width_step rz st cnf).1).1.height = some h := hsurv
    have hframe := tlf_width_step_frame rz st cnf
    obtain ⟨hcnf, hmin, hmax, hres⟩ := tlf_height_step_sound rz
      (tlf_width_step rz st cnf).2 (tlf_width_step rz st cnf).1 h hsurv2
    rw [hframe.2.2.1] at hcnf
    rw [hframe.1] at hmin hmax
    rw [hframe.1, hframe.2.1] at hres
    exact ⟨hcnf, hmin, hmax, hres⟩

/-- A RESIZABLE table marking every value resizable on both axes. -/
def rz0 : String → Bool × Bool := fun _ => (true, true)

/-- A preview state with recorded minsize (100, 50) and no size applied yet. -/
def st0tl : TLState := ⟨⟨some (100, 50), none, none⟩, false, false⟩

/-- A configure call requesting 150×60 plus a menu. -/
def cnf0tl : Cnf := ⟨some 150, some 60, some "m1"⟩

/-- Witness for C10: the requested width 150 survives and the theorem yields
the recorded minsize lower bound for it. -/
theorem c10_toplevel_configure_witness :
    (tlf_configure rz0 st0tl cnf0tl).1.width = some 150
      ∧ (∀ ms, st0tl.tl_attrs.minsize = some ms → ms.1 ≤ 150) :=
  ⟨by decide, ((c10_toplevel_configure rz0 st0tl cnf0tl).2.1 150 (by decide)).2.1⟩

/-! Filter engine (`filter_by`, `_detach`, `_reatach`).  The displayed tree is
a forest of rows, each carrying its Tk iid, its label text
(`'{identifier}: {classname}'`) and the widget classname from `treedata`. -/

/-- One treeview row with its subtree. -/
inductive Item where
  | mk (iid : String) (text : String) (classname : String) (children : List Item)

/-- The Tk item id. -/
def Item.iid : Item → String
  | .mk i _ _ _ => i

/-- The displayed label (`treeview.item(item, 'text')`). -/
def Item.text : Item → String
  | .mk _ t _ _ => t

/-- The classname of the item's widget record. -/
def Item.classname : Item → String
  | .mk _ _ c _ => c

/-- The ordered children. -/
def Item.children : Item → List Item
  | .mk _ _ _ ch => ch

mutual

def beqItem : Item → Item → Bool
  | .mk i1 t1 c1 ch1, .mk i2 t2 c2 ch2 =>
    i1 == i2 && t1 == t2 && c1 == c2 && beqItemList ch1 ch2

def beqItemList : List Item → List Item → Bool
  | [], [] => true
  | a :: as, b :: bs => beqItem a b && beqItemList as bs
  | _, _ => false

end

mutual

theorem beqItem_eq : ∀ a b : Item, beqItem a b = true ↔ a = b
  | .mk i1 t1 c1 ch1, .mk i2 t2 c2 ch2 => by
    simp only [beqItem, Bool.and_eq_true, beq_iff_eq, Item.mk.injEq]
    rw [beqItemList_eq ch1 ch2]
    tauto

theorem beqItemList_eq : ∀ as bs : List Item, beqItemList as bs = true ↔ as = bs
  | [], [] => by simp [beqItemList]
  | [], _ :: _ => by simp [beqItemList]
  | _ :: _, [] => by simp [beqItemList]
  | a :: as, b :: bs => by
    simp only [beqItemList, Bool.and_eq_true, List.cons.injEq]
    rw [beqItem_eq a b, beqItemList_eq as bs]

end

instance : DecidableEq Item := fun a b => decidable_of_iff _ (beqItem_eq a b)

/-- The matching test of `_detach`: the filter text as typed against the
lower-cased label, then against the lower-cased classname. -/
def itemMatch (s : String) (it : Item) : Bool :=
  strContains (lowerStr it.text) s || strContains (lowerStr it.classname) s

theorem strContains_iff (hay needle : String) :
    strContains hay needle = true ↔ IsSubstr needle hay := by
  unfold strContains IsSubstr
  rw [List.any_eq_true]
  constructor
  · rintro ⟨t, ht, hp⟩
    rw [List.mem_tails] at ht
    rw [List.isPrefixOf_iff_prefix] at hp
    have hinf : needle.toList <:+: hay.toList :=
      List.infix_iff_prefix_suffix.mpr ⟨t, hp, ht⟩
    obtain ⟨a, b, hab⟩ := hinf
    refine ⟨⟨a⟩, ⟨b⟩, ?_⟩
    apply String.ext
    show hay.data = (String.mk a ++ needle ++ String.mk b).data
    have h1 : (String.mk a ++ needle ++ String.mk b).data =
        a ++ needle.data ++ b := by
      simp [String.data_append]
    rw [h1]
    exact hab.symm
  · rintro ⟨pre, post, rfl⟩
    refine ⟨needle.toList ++ post.toList, ?_, ?_⟩
    · rw [List.mem_tails]
      refine ⟨pre.toList, ?_⟩
      show pre.data ++ (needle.data ++ post.data) = (pre ++ needle ++ post).data
      simp [String.data_append]
    · rw [List.isPrefixOf_iff_prefix]
      exact ⟨post.toList, by simp⟩

/-- C9 (amended): a node matches the filter exactly when the filter text, as
typed, occurs as a substring of the lower-cased display label or of the
lower-cased classname — the target is case-folded but the filter text is not. -/
theorem c9_filter_matching (s : String) (it : Item) :
    itemMatch s it = true ↔
      (IsSubstr s (lowerStr it.text) ∨ IsSubstr s (lowerStr it.classname)) := by
  unfold itemMatch
  rw [Bool.or_eq_true, strContains_iff, strContains_iff]

/-- The matching predicate the claim describes: a case-insensitive substring
test, i.e. both the target and the filter text case-folded. -/
def claimMatch (s : String) (it : Item) : Bool :=
  strContains (lowerStr it.text) (lowerStr s) || strContains (lowerStr it.classname) (lowerStr s)

/-- C9 counterexample: with filter text `Button` and a row labelled
`button1: tk.Button`, the case-insensitive predicate of the claim matches, but
`_detach` lower-cases only the target, so the source predicate does not. -/
theorem c9_counterexample :
    claimMatch "Button" (Item.mk "i1" "button1: tk.Button" "tk.Button" []) = true
      ∧ itemMatch "Button" (Item.mk "i1" "button1: tk.Button" "tk.Button" []) = false := by
  constructor
  · decide
  · decide

/-- A detachment record of `self._detached`: the detached item (whose subtree
Tk keeps alive while detached), its parent iid (`''` for top level) and its
original index among its siblings. -/
structure DetRec where
  item : Item
  parent : String
  idx : Nat
deriving DecidableEq

mutual

/-- Whether a subtree contains a matching node (the Bool returned by
`_detach`: `match_found | children_match`). -/
def subtreeMatchI (s : String) : Item → Bool
  | .mk iid t cl ch => itemMatch s (.mk iid t cl ch) || subtreeMatchL s ch

/-- Whether some subtree of a forest contains a matching node. -/
def subtreeMatchL (s : String) : List Item → Bool
  | [] => false
  | c :: rest => subtreeMatchI s c || subtreeMatchL s rest

end

mutual

/-- `_detach(item)`: returns whether the subtree holds a match together with
the records to detach — the children's records when the item or a descendant
matches, and only the item itself (with its parent iid and original index)
when the whole subtree fails to match. -/
def scanItem (s : String) (p : String) (i : Nat) : Item → Bool × List DetRec
  | .mk iid t cl ch =>
    let m := itemMatch s (.mk iid t cl ch)
    let r := scanChildren s iid 0 ch
    if m then (true, r.2)
    else if r.1 then (true, r.2)
    else (false, [⟨.mk iid t cl ch, p, i⟩])

/-- The `for child in children` part of `_detach`: OR of the matches,
concatenation of the records in child order. -/
def scanChildren (s : String) (p : String) (i : Nat) : List Item → Bool × List DetRec
  | [] => (false, [])
  | c :: rest =>
    let r1 := scanItem s p i c
    let r2 := scanChildren s p (i + 1) rest
    (r1.1 || r2.1, r1.2 ++ r2.2)

end

mutual

/-- The filtered view of one (match-containing) subtree: fully non-matching
child subtrees removed, recursively. -/
def pruneI (s : String) : Item → Item
  | .mk iid t cl ch => .mk iid t cl (pruneL s ch)

/-- The filtered view of a forest. -/
def pruneL (s : String) : List Item → List Item
  | [] => []
  | c :: rest => if subtreeMatchI s c then pruneI s c :: pruneL s rest else pruneL s rest

end

mutual

/-- All iids of a subtree. -/
def iidsI : Item → List String
  | .mk iid _ _ ch => iid :: iidsL ch

/-- All iids of a forest. -/
def iidsL : List Item → List String
  | [] => []
  | c :: rest => iidsI c ++ iidsL rest

end

mutual

/-- `treeview.detach(i)` inside one subtree: remove the node with iid `i`
(with its whole subtree) wherever it occurs below this node. -/
def removeIidI (i : String) : Item → Item
  | .mk iid t cl ch => .mk iid t cl (removeIidL i ch)

/-- `treeview.detach(i)` on a forest. -/
def removeIidL (i : String) : List Item → List Item
  | [] => []
  | c :: rest => if c.iid = i then removeIidL i rest else removeIidI i c :: removeIidL i rest

end

/-- Tk `move`'s index semantics: insert at the given position, clamped to the
end of the list. -/
def insertAt : Nat → Item → List Item → List Item
  | _, x, [] => [x]
  | 0, x, l => x :: l
  | n + 1, x, c :: rest => c :: insertAt n x rest

mutual

/-- `treeview.move(x, p, idx)` inside one subtree: attach `x` at index `idx`
under the node whose iid is `p`. -/
def addChildI (p : String) (idx : Nat) (x : Item) : Item → Item
  | .mk iid t cl ch =>
    if iid = p then .mk iid t cl (insertAt idx x ch)
    else .mk iid t cl (addChildL p idx x ch)

/-- `treeview.move(x, p, idx)` on a forest. -/
def addChildL (p : String) (idx : Nat) (x : Item) : List Item → List Item
  | [] => []
  | c :: rest => addChildI p idx x c :: addChildL p idx x rest

end

/-- One step of `_reatach`: `treeview.move(item, p, idx)` — at top level
(parent `p0`, the virtual root `''`) an insertion into the forest, otherwise an
insertion below the recorded parent iid. -/
def clearStep (p0 : String) (acc : List Item) (r : DetRec) : List Item :=
  if r.parent = p0 then insertAt r.idx r.item acc
  else addChildL r.parent r.idx r.item acc

/-- `filter_by(string)` from a state with nothing detached and a non-empty
string: scan every top-level subtree collecting the records in order, then
detach every recorded item.  Returns the filtered forest and the records. -/
def filter_by (s : String) (f : List Item) : List Item × List DetRec :=
  let recs := (scanChildren s "" 0 f).2
  (recs.foldl (fun acc r => removeIidL r.item.iid acc) f, recs)

/-- `_reatach()`: replay the records in recorded (= detachment) order, moving
each item back to its remembered (parent, index). -/
def reatach (f : List Item) (recs : List DetRec) : List Item :=
  recs.foldl (clearStep "") f

/-- Re-attachment in the REVERSE order of detachment, as the claim describes
it. -/
def reatachRev (f : List Item) (recs : List DetRec) : List Item :=
  recs.reverse.foldl (clearStep "") f

theorem iid_mem_iidsI : ∀ c : Item, c.iid ∈ iidsI c := by
  intro c
  cases c
  simp [iidsI, Item.iid]

theorem iidsL_append : ∀ a b : List Item, iidsL (a ++ b) = iidsL a ++ iidsL b := by
  intro a b
  induction a with
  | nil => rfl
  | cons c rest ih => simp [iidsL, ih]

theorem insertAt_length_append : ∀ (done : List Item) (x : Item) (z : List Item),
    insertAt done.length x (done ++ z) = done ++ x :: z := by
  intro done
  induction done with
  | nil =>
    intro x z
    cases z with
    | nil => rfl
    | cons c cs => rfl
  | cons d done ih =>
    intro x z
    show insertAt (done.length + 1) x (d :: (done ++ z)) = d :: (done ++ x :: z)
    rw [insertAt, ih]

theorem removeIidL_append (i : String) : ∀ a b : List Item,
    removeIidL i (a ++ b) = removeIidL i a ++ removeIidL i b := by
  intro a b
  induction a with
  | nil => rfl
  | cons c rest ih =>
    show removeIidL i (c :: (rest ++ b)) = removeIidL i (c :: rest) ++ removeIidL i b
    by_cases h : c.iid = i
    · rw [removeIidL, if_pos h, removeIidL, if_pos h, ih]
    · rw [removeIidL, if_neg h, removeIidL, if_neg h, ih]
      rfl

mutual

theorem removeIidI_not_mem : ∀ (it : Item) (i : String), i ∉ iidsI it → removeIidI i it = it
  | .mk iid t cl ch, i, h => by
    have h2 : i ∉ iidsL ch := fun hx => h (by simp [iidsI]; exact Or.inr hx)
    rw [removeIidI, removeIidL_not_mem ch i h2]

theorem removeIidL_not_mem : ∀ (l : List Item) (i : String), i ∉ iidsL l → removeIidL i l = l
  | [], _, _ => rfl
  | c :: rest, i, h => by
    have h1 : i ∉ iidsI c := fun hx => h (by rw [iidsL, List.mem_append]; exact Or.inl hx)
    have h2 : i ∉ iidsL rest := fun hx => h (by rw [iidsL, List.mem_append]; exact Or.inr hx)
    have hne : c.iid ≠ i := fun he => h1 (he ▸ iid_mem_iidsI c)
    rw [removeIidL, if_neg hne, removeIidI_not_mem c i h1, removeIidL_not_mem rest i h2]

end

theorem removeIidI_iid (i : String) (it : Item) : (removeIidI i it).iid = it.iid := by
  cases it
  rfl

theorem addChildL_append (p : String) (idx : Nat) (x : Item) : ∀ a b : List Item,
    addChildL p idx x (a ++ b) = addChildL p idx x a ++ addChildL p idx x b := by
  intro a b
  induction a with
  | nil => rfl
  | cons c rest ih =>
    show addChildL p idx x (c :: (rest ++ b)) = addChildL p idx x (c :: rest) ++ addChildL p idx x b
    rw [addChildL, addChildL, ih]
    rfl

mutual

theorem addChildI_not_mem : ∀ (it : Item) (p : String) (idx : Nat) (x : Item),
    p ∉ iidsI it → addChildI p idx x it = it
  | .mk iid t cl ch, p, idx, x, h => by
    have hne : iid ≠ p := fun he => h (by rw [← he]; exact iid_mem_iidsI (.mk iid t cl ch))
    have h2 : p ∉ iidsL ch := fun hx => h (by simp [iidsI]; exact Or.inr hx)
    rw [addChildI, if_neg hne, addChildL_not_mem ch p idx x h2]

theorem addChildL_not_mem : ∀ (l : List Item) (p : String) (idx : Nat) (x : Item),
    p ∉ iidsL l → addChildL p idx x l = l
  | [], _, _, _, _ => rfl
  | c :: rest, p, idx, x, h => by
    have h1 : p ∉ iidsI c := fun hx => h (by rw [iidsL, List.mem_append]; exact Or.inl hx)
    have h2 : p ∉ iidsL rest := fun hx => h (by rw [iidsL, List.mem_append]; exact Or.inr hx)
    rw [addChildL, addChildI_not_mem c p idx x h1, addChildL_not_mem rest p idx x h2]

end

mutual

theorem scanItem_fst : ∀ (c : Item) (s p : String) (i : Nat),
    (scanItem s p i c).1 = subtreeMatchI s c
  | .mk iid t cl ch, s, p, i => by
    rw [scanItem, subtreeMatchI]
    by_cases hm : itemMatch s (.mk iid t cl ch) = true
    · simp [hm]
    · have hm' : itemMatch s (.mk iid t cl ch) = false := by
        cases hx : itemMatch s (.mk iid t cl ch)
        · rfl
        · exact absurd hx hm
      rw [hm']
      simp only [Bool.false_eq_true, if_false, Bool.false_or]
      rw [← scanChildren_fst ch s iid 0]
      by_cases hc : (scanChildren s iid 0 ch).1 = true
      · simp [hc]
      · have hc' : (scanChildren s iid 0 ch).1 = false := by
          cases hx : (scanChildren s iid 0 ch).1
          · rfl
          · exact absurd hx hc
        simp [hc']

theorem scanChildren_fst : ∀ (l : List Item) (s p : String) (i : Nat),
    (scanChildren s p i l).1 = subtreeMatchL s l
  | [], _, _, _ => rfl
  | c :: rest, s, p, i => by
    rw [scanChildren, subtreeMatchL, ← scanItem_fst c s p i, ← scanChildren_fst rest s p (i + 1)]

end

mutual

theorem scanItem_recs_mem : ∀ (c : Item) (s p : String) (i : Nat) (r : DetRec),
    r ∈ (scanItem s p i c).2 →
      (r.parent = p ∨ r.parent ∈ iidsI c) ∧ r.item.iid ∈ iidsI c
  | .mk iid t cl ch, s, p, i, r, hr => by
    rw [scanItem] at hr
    by_cases hm : itemMatch s (.mk iid t cl ch) = true
    · rw [if_pos hm] at hr
      have := scanChildren_recs_mem ch s iid 0 r hr
      refine ⟨?_, by rw [iidsI, List.mem_cons]; exact Or.inr this.2⟩
      rcases this.1 with h | h
      · exact Or.inr (by rw [iidsI, h, List.mem_cons]; exact Or.inl rfl)
      · exact Or.inr (by rw [iidsI, List.mem_cons]; exact Or.inr h)
    · rw [if_neg hm] at hr
      by_cases hc : (scanChildren s iid 0 ch).1 = true
      · rw [if_pos hc] at hr
        have := scanChildren_recs_mem ch s iid 0 r hr
        refine ⟨?_, by rw [iidsI, List.mem_cons]; exact Or.inr this.2⟩
        rcases this.1 with h | h
        · exact Or.inr (by rw [iidsI, h, List.mem_cons]; exact Or.inl rfl)
        · exact Or.inr (by rw [iidsI, List.mem_cons]; exact Or.inr h)
      · rw [if_neg hc] at hr
        have : r = ⟨.mk iid t cl ch, p, i⟩ := by simpa using hr
        subst this
        exact ⟨Or.inl rfl, iid_mem_iidsI (.mk iid t cl ch)⟩

theorem scanChildren_recs_mem : ∀ (l : List Item) (s p : String) (i : Nat) (r : DetRec),
    r ∈ (scanChildren s p i l).2 →
      (r.parent = p ∨ r.parent ∈ iidsL l) ∧ r.item.iid ∈ iidsL l
  | [], _, _, _, r, hr => by cases hr
  | c :: rest, s, p, i, r, hr => by
    rw [scanChildren] at hr
    rcases List.mem_append.mp hr with h | h
    · have := scanItem_recs_mem c s p i r h
      refine ⟨?_, by rw [iidsL, List.mem_append]; exact Or.inl this.2⟩
      rcases this.1 with h1 | h1
      · exact Or.inl h1
      · exact Or.inr (by rw [iidsL, List.mem_append]; exact Or.inl h1)
    · have := scanChildren_recs_mem rest s p (i + 1) r h
      refine ⟨?_, by rw [iidsL, List.mem_append]; exact Or.inr this.2⟩
      rcases this.1 with h1 | h1
      · exact Or.inl h1
      · exact Or.inr (by rw [iidsL, List.mem_append]; exact Or.inr h1)

end

theorem scanItem_recs_mem_true (c : Item) (s p : String) (i : Nat)
    (hmt : subtreeMatchI s c = true) (r : DetRec) (hr : r ∈ (scanItem s p i c).2) :
    r.parent ∈ iidsI c ∧ r.item.iid ∈ iidsL c.children := by
  rcases c with ⟨iid, t, cl, ch⟩
  rw [scanItem] at hr
  have hrecs : r ∈ (scanChildren s iid 0 ch).2 := by
    by_cases hm : itemMatch s (.mk iid t cl ch) = true
    · rwa [if_pos hm] at hr
    · rw [if_neg hm] at hr
      by_cases hc : (scanChildren s iid 0 ch).1 = true
      · rwa [if_pos hc] at hr
      · exfalso
        rw [subtreeMatchI] at hmt
        rcases Bool.or_eq_true _ _ |>.mp hmt with h | h
        · exact hm h
        · rw [← scanChildren_fst ch s iid 0] at h
          exact hc h
  have := scanChildren_recs_mem ch s iid 0 r hrecs
  constructor
  · rcases this.1 with h | h
    · rw [iidsI, h, List.mem_cons]
      exact Or.inl rfl
    · rw [iidsI, List.mem_cons]
      exact Or.inr h
  · exact this.2

mutual

theorem iidsI_pruneI_subset : ∀ (c : Item) (s x : String), x ∈ iidsI (pruneI s c) → x ∈ iidsI c
  | .mk iid t cl ch, s, x, h => by
    rw [pruneI, iidsI, List.mem_cons] at h
    rw [iidsI, List.mem_cons]
    rcases h with h | h
    · exact Or.inl h
    · exact Or.inr (iidsL_pruneL_subset ch s x h)

theorem iidsL_pruneL_subset : ∀ (l : List Item) (s x : String), x ∈ iidsL (pruneL s l) → x ∈ iidsL l
  | [], _, _, h => by cases h
  | c :: rest, s, x, h => by
    rw [pruneL] at h
    rw [iidsL, List.mem_append]
    by_cases hm : subtreeMatchI s c = true
    · rw [if_pos hm, iidsL, List.mem_append] at h
      rcases h with h | h
      · exact Or.inl (iidsI_pruneI_subset c s x h)
      · exact Or.inr (iidsL_pruneL_subset rest s x h)
    · rw [if_neg hm] at h
      exact Or.inr (iidsL_pruneL_subset rest s x h)

end

theorem foldRemove_mid : ∀ (recs : List DetRec) (pre : List Item) (m : Item) (z : List Item),
    (∀ r ∈ recs, r.item.iid ∉ iidsL pre ∧ r.item.iid ≠ m.iid ∧ r.item.iid ∉ iidsL z) →
    recs.foldl (fun acc r => removeIidL r.item.iid acc) (pre ++ m :: z) =
      pre ++ (recs.foldl (fun it r => removeIidI r.item.iid it) m) :: z := by
  intro recs
  induction recs with
  | nil => intro pre m z _; rfl
  | cons r recs ih =>
    intro pre m z h
    have hr := h r (List.mem_cons_self r recs)
    simp only [List.foldl_cons]
    have hstep : removeIidL r.item.iid (pre ++ m :: z) =
        pre ++ removeIidI r.item.iid m :: z := by
      rw [removeIidL_append, removeIidL_not_mem pre _ hr.1]
      have : removeIidL r.item.iid (m :: z) = removeIidI r.item.iid m :: z := by
        rw [removeIidL, if_neg (fun he => hr.2.1 he.symm),
          removeIidL_not_mem z _ hr.2.2]
      rw [this]
    rw [hstep]
    exact ih pre (removeIidI r.item.iid m) z (fun r2 h2 =>
      ⟨(h r2 (List.mem_cons_of_mem r h2)).1,
       by rw [removeIidI_iid]; exact (h r2 (List.mem_cons_of_mem r h2)).2.1,
       (h r2 (List.mem_cons_of_mem r h2)).2.2⟩)

theorem foldAdd_mid : ∀ (recs : List DetRec) (p0 : String) (pre : List Item) (m : Item)
    (z : List Item),
    (∀ r ∈ recs, r.parent ≠ p0 ∧ r.parent ∉ iidsL pre ∧ r.parent ∉ iidsL z) →
    recs.foldl (clearStep p0) (pre ++ m :: z) =
      pre ++ (recs.foldl (fun it r => addChildI r.parent r.idx r.item it) m) :: z := by
  intro recs
  induction recs with
  | nil => intro p0 pre m z _; rfl
  | cons r recs ih =>
    intro p0 pre m z h
    have hr := h r (List.mem_cons_self r recs)
    simp only [List.foldl_cons]
    have hstep : clearStep p0 (pre ++ m :: z) r =
        pre ++ addChildI r.parent r.idx r.item m :: z := by
      rw [clearStep, if_neg hr.1, addChildL_append, addChildL_not_mem pre _ _ _ hr.2.1]
      have : addChildL r.parent r.idx r.item (m :: z) =
          addChildI r.parent r.idx r.item m :: z := by
        rw [addChildL, addChildL_not_mem z _ _ _ hr.2.2]
      rw [this]
    rw [hstep]
    exact ih p0 pre (addChildI r.parent r.idx r.item m) z
      (fun r2 h2 => h r2 (List.mem_cons_of_mem r h2))

theorem foldRemoveInner_proj : ∀ (recs : List DetRec) (iid t cl : String) (ch : List Item),
    recs.foldl (fun it r => removeIidI r.item.iid it) (.mk iid t cl ch) =
      .mk iid t cl (recs.foldl (fun acc r => removeIidL r.item.iid acc) ch) := by
  intro recs
  induction recs with
  | nil => intro iid t cl ch; rfl
  | cons r recs ih =>
    intro iid t cl ch
    simp only [List.foldl_cons]
    rw [show removeIidI r.item.iid (.mk iid t cl ch) =
      Item.mk iid t cl (removeIidL r.item.iid ch) from rfl]
    exact ih iid t cl (removeIidL r.item.iid ch)

theorem foldAddInner_proj : ∀ (recs : List DetRec) (iid t cl : String) (ch : List Item),
    recs.foldl (fun it r => addChildI r.parent r.idx r.item it) (.mk iid t cl ch) =
      .mk iid t cl (recs.foldl (clearStep iid) ch) := by
  intro recs
  induction recs with
  | nil => intro iid t cl ch; rfl
  | cons r recs ih =>
    intro iid t cl ch
    simp only [List.foldl_cons]
    have hstep : addChildI r.parent r.idx r.item (.mk iid t cl ch) =
        Item.mk iid t cl (clearStep iid ch r) := by
      rw [addChildI, clearStep]
      by_cases h : iid = r.parent
      · rw [if_pos h, if_pos h.symm]
      · rw [if_neg h, if_neg (fun he => h he.symm)]
    rw [hstep]
    exact ih iid t cl (clearStep iid ch r)

theorem filter_apply_eq_prune : (l : List Item) → (s p : String) → (i : Nat) →
    (pre : List Item) →
    (∀ x ∈ iidsL pre, x ∉ iidsL l) → (iidsL l).Nodup →
    (scanChildren s p i l).2.foldl (fun acc r => removeIidL r.item.iid acc) (pre ++ l) =
      pre ++ pruneL s l
  | [], s, p, i, pre, _, _ => by simp [scanChildren, pruneL]
  | Item.mk iid t cl ch :: rest, s, p, i, pre, hd, hn => by
    have hn' : ((iid :: iidsL ch) ++ iidsL rest).Nodup := hn
    rcases List.nodup_append.mp hn' with ⟨hnc, hnr, hdisj⟩
    have hiidch : iid ∉ iidsL ch := (List.nodup_cons.mp hnc).1
    have hnch : (iidsL ch).Nodup := (List.nodup_cons.mp hnc).2
    rw [show (scanChildren s p i (Item.mk iid t cl ch :: rest)).2 =
      (scanItem s p i (Item.mk iid t cl ch)).2 ++ (scanChildren s p (i + 1) rest).2 from rfl]
    rw [List.foldl_append]
    by_cases hmt : subtreeMatchI s (Item.mk iid t cl ch) = true
    · have hrecs1 : ∀ r ∈ (scanItem s p i (Item.mk iid t cl ch)).2,
          r.parent ∈ iidsI (Item.mk iid t cl ch) ∧ r.item.iid ∈ iidsL ch :=
        fun r hr => scanItem_recs_mem_true (Item.mk iid t cl ch) s p i hmt r hr
      have hmid := foldRemove_mid (scanItem s p i (Item.mk iid t cl ch)).2 pre
        (Item.mk iid t cl ch) rest (by
          intro r hr
          have hr2 := (hrecs1 r hr).2
          refine ⟨?_, ?_, ?_⟩
          · intro hmem
            exact hd r.item.iid hmem (by
              show r.item.iid ∈ (iid :: iidsL ch) ++ iidsL rest
              rw [List.mem_append]
              exact Or.inl (List.mem_cons_of_mem iid hr2))
          · intro he
            exact hiidch ((show r.item.iid = iid from he) ▸ hr2)
          · exact hdisj (List.mem_cons_of_mem iid hr2))
      rw [hmid]
      have hrecseq : (scanItem s p i (Item.mk iid t cl ch)).2 =
          (scanChildren s iid 0 ch).2 := by
        rw [scanItem]
        by_cases hm : itemMatch s (.mk iid t cl ch) = true
        · rw [if_pos hm]
        · rw [if_neg hm]
          have hc : (scanChildren s iid 0 ch).1 = true := by
            rw [subtreeMatchI] at hmt
            rcases (Bool.or_eq_true _ _).mp hmt with h | h
            · exact absurd h hm
            · rw [scanChildren_fst ch s iid 0]
              exact h
          rw [if_pos hc]
      rw [hrecseq, foldRemoveInner_proj]
      have hinner := filter_apply_eq_prune ch s iid 0 [] (by intro x hx; cases hx) hnch
      rw [show ([] : List Item) ++ ch = ch from rfl] at hinner
      rw [show ([] : List Item) ++ pruneL s ch = pruneL s ch from rfl] at hinner
      rw [hinner]
      have hrest := filter_apply_eq_prune rest s p (i + 1)
        (pre ++ [pruneI s (Item.mk iid t cl ch)]) (by
          intro x hx hxr
          rw [iidsL_append] at hx
          rcases List.mem_append.mp hx with h | h
          · exact hd x h (by
              show x ∈ (iid :: iidsL ch) ++ iidsL rest
              rw [List.mem_append]
              exact Or.inr hxr)
          · have h2 : x ∈ iidsI (pruneI s (Item.mk iid t cl ch)) := by
              rw [iidsL, List.mem_append] at h
              rcases h with h | h
              · exact h
              · cases h
            have h3 : x ∈ iidsI (Item.mk iid t cl ch) :=
              iidsI_pruneI_subset (Item.mk iid t cl ch) s x h2
            exact hdisj h3 hxr) hnr
      rw [List.append_assoc] at hrest
      rw [show [pruneI s (Item.mk iid t cl ch)] ++ rest =
        pruneI s (Item.mk iid t cl ch) :: rest from rfl] at hrest
      rw [show pruneI s (Item.mk iid t cl ch) =
        Item.mk iid t cl (pruneL s ch) from rfl] at hrest
      rw [hrest]
      rw [pruneL, if_pos hmt]
      rw [List.append_assoc]
      rfl
    · have hrecseq : (scanItem s p i (Item.mk iid t cl ch)).2 =
          [⟨Item.mk iid t cl ch, p, i⟩] := by
        rw [scanItem]
        have hm : ¬ itemMatch s (.mk iid t cl ch) = true := by
          intro h
          exact hmt (by rw [subtreeMatchI, h, Bool.true_or])
        have hc : ¬ (scanChildren s iid 0 ch).1 = true := by
          intro h
          rw [scanChildren_fst ch s iid 0] at h
          exact hmt (by rw [subtreeMatchI, h, Bool.or_true])
        rw [if_neg hm, if_neg hc]
      rw [hrecseq]
      simp only [List.foldl_cons, List.foldl_nil]
      have hiidnp : iid ∉ iidsL pre := by
        intro hmem
        exact hd iid hmem (by
          show iid ∈ (iid :: iidsL ch) ++ iidsL rest
          rw [List.mem_append]
          exact Or.inl (List.mem_cons_self iid _))
      have hstep : removeIidL iid (pre ++ Item.mk iid t cl ch :: rest) = pre ++ rest := by
        rw [removeIidL_append, removeIidL_not_mem pre iid hiidnp]
        have : removeIidL iid (Item.mk iid t cl ch :: rest) = rest := by
          rw [removeIidL, if_pos (show (Item.mk iid t cl ch).iid = iid from rfl),
            removeIidL_not_mem rest iid (hdisj (List.mem_cons_self iid _))]
        rw [this]
      rw [show (⟨Item.mk iid t cl ch, p, i⟩ : DetRec).item.iid = iid from rfl, hstep]
      have hrest := filter_apply_eq_prune rest s p (i + 1) pre (by
        intro x hx hxr
        exact hd x hx (by
          show x ∈ (iid :: iidsL ch) ++ iidsL rest
          rw [List.mem_append]
          exact Or.inr hxr)) hnr
      rw [hrest, pruneL, if_neg hmt]

theorem reatach_restores : (l : List Item) → (s p0 : String) → (done : List Item) →
    p0 ∉ iidsL done → p0 ∉ iidsL l →
    (∀ x ∈ iidsL done, x ∉ iidsL l) → (iidsL l).Nodup →
    (scanChildren s p0 done.length l).2.foldl (clearStep p0) (done ++ pruneL s l) =
      done ++ l
  | [], s, p0, done, _, _, _, _ => by simp [scanChildren, pruneL]
  | Item.mk iid t cl ch :: rest, s, p0, done, hp0d, hp0l, hd, hn => by
    have hn' : ((iid :: iidsL ch) ++ iidsL rest).Nodup := hn
    rcases List.nodup_append.mp hn' with ⟨hnc, hnr, hdisj⟩
    have hiidch : iid ∉ iidsL ch := (List.nodup_cons.mp hnc).1
    have hnch : (iidsL ch).Nodup := (List.nodup_cons.mp hnc).2
    have hbig : ∀ x, x ∈ iidsI (Item.mk iid t cl ch) ∨ x ∈ iidsL rest →
        x ∈ iidsL (Item.mk iid t cl ch :: rest) := by
      intro x hx
      show x ∈ (iid :: iidsL ch) ++ iidsL rest
      rw [List.mem_append]
      exact hx
    have hrecseq : (scanItem s p0 done.length (Item.mk iid t cl ch)).2 =
        (if subtreeMatchI s (Item.mk iid t cl ch) = true
         then (scanChildren s iid 0 ch).2
         else [⟨Item.mk iid t cl ch, p0, done.length⟩]) := by
      rw [scanItem]
      by_cases hm : itemMatch s (.mk iid t cl ch) = true
      · rw [if_pos hm, if_pos (by rw [subtreeMatchI, hm, Bool.true_or])]
      · rw [if_neg hm]
        by_cases hc : (scanChildren s iid 0 ch).1 = true
        · rw [if_pos hc, if_pos (by
            rw [subtreeMatchI, scanChildren_fst ch s iid 0 |>.symm, hc, Bool.or_true])]
        · rw [if_neg hc, if_neg (by
            intro hx
            rw [subtreeMatchI] at hx
            rcases (Bool.or_eq_true _ _).mp hx with h | h
            · exact hm h
            · rw [← scanChildren_fst ch s iid 0] at h
              exact hc h)]
    rw [show (scanChildren s p0 done.length (Item.mk iid t cl ch :: rest)).2 =
      (scanItem s p0 done.length (Item.mk iid t cl ch)).2 ++
        (scanChildren s p0 (done.length + 1) rest).2 from rfl]
    rw [List.foldl_append]
    have hrest := reatach_restores rest s p0 (done ++ [Item.mk iid t cl ch])
      (by
        rw [iidsL_append, List.mem_append]
        rintro (h | h)
        · exact hp0d h
        · apply hp0l
          apply hbig
          left
          rw [iidsL] at h
          rw [List.mem_append] at h
          rcases h with h | h
          · exact h
          · cases h)
      (fun h => hp0l (hbig p0 (Or.inr h)))
      (by
        intro x hx hxr
        rw [iidsL_append, List.mem_append] at hx
        rcases hx with h | h
        · exact hd x h (hbig x (Or.inr hxr))
        · have h2 : x ∈ iidsI (Item.mk iid t cl ch) := by
            rw [iidsL, List.mem_append] at h
            rcases h with h | h
            · exact h
            · cases h
          exact hdisj h2 hxr)
      hnr
    rw [List.length_append, List.length_singleton] at hrest
    by_cases hmt : subtreeMatchI s (Item.mk iid t cl ch) = true
    · rw [pruneL, if_pos hmt]
      rw [hrecseq, if_pos hmt]
      have hrecs1 : ∀ r ∈ (scanChildren s iid 0 ch).2,
          r.parent ∈ iidsI (Item.mk iid t cl ch) ∧ r.item.iid ∈ iidsL ch := by
        intro r hr
        apply scanItem_recs_mem_true (Item.mk iid t cl ch) s p0 done.length hmt
        rw [hrecseq, if_pos hmt]
        exact hr
      have hmid := foldAdd_mid (scanChildren s iid 0 ch).2 p0 done
        (pruneI s (Item.mk iid t cl ch)) (pruneL s rest) (by
          intro r hr
          have hp := (hrecs1 r hr).1
          refine ⟨?_, ?_, ?_⟩
          · intro he
            exact hp0l (hbig p0 (Or.inl (he ▸ hp)))
          · intro hmem
            exact hd r.parent hmem (hbig r.parent (Or.inl hp))
          · intro hmem
            exact hdisj hp (iidsL_pruneL_subset rest s r.parent hmem))
      rw [hmid]
      rw [show pruneI s (Item.mk iid t cl ch) = Item.mk iid t cl (pruneL s ch) from rfl]
      rw [foldAddInner_proj]
      have hinner := reatach_restores ch s iid [] (fun h => by cases h) hiidch
        (fun x hx => by cases hx) hnch
      rw [show (([] : List Item)).length = 0 from rfl] at hinner
      rw [show ([] : List Item) ++ pruneL s ch = pruneL s ch from rfl] at hinner
      rw [show ([] : List Item) ++ ch = ch from rfl] at hinner
      rw [hinner]
      rw [show done ++ Item.mk iid t cl ch :: pruneL s rest =
        (done ++ [Item.mk iid t cl ch]) ++ pruneL s rest from by
          rw [List.append_assoc]; rfl]
      rw [hrest, List.append_assoc]
      rfl
    · rw [pruneL, if_neg hmt]
      rw [hrecseq, if_neg hmt]
      simp only [List.foldl_cons, List.foldl_nil]
      have hstep : clearStep p0 (done ++ pruneL s rest)
          ⟨Item.mk iid t cl ch, p0, done.length⟩ =
          done ++ Item.mk iid t cl ch :: pruneL s rest := by
        rw [clearStep,
          if_pos (show (⟨Item.mk iid t cl ch, p0, done.length⟩ : DetRec).parent = p0 from rfl)]
        exact insertAt_length_append done (Item.mk iid t cl ch) (pruneL s rest)
      rw [hstep]
      rw [show done ++ Item.mk iid t cl ch :: pruneL s rest =
        (done ++ [Item.mk iid t cl ch]) ++ pruneL s rest from by
          rw [List.append_assoc]; rfl]
      rw [hrest, List.append_assoc]
      rfl

/-- C2 (amended): for every forest with well-formed (non-empty, distinct) Tk
iids and every non-empty filter text, applying the filter (scan, then detach
every recorded maximal non-matching subtree) and then re-attaching every
recorded node at its remembered (parent, index) in the SAME order as
detachment restores the exact prior ordered parent/child structure — including
forests with no matches, which are fully hidden then fully restored. -/
theorem c2_filter_round_trip (s : String) (f : List Item) (hs : s ≠ "")
    (hids : ("" :: iidsL f).Nodup) :
    reatach (filter_by s f).1 (filter_by s f).2 = f := by
  have hnodup : (iidsL f).Nodup := (List.nodup_cons.mp hids).2
  have hne : "" ∉ iidsL f := (List.nodup_cons.mp hids).1
  have ha := filter_apply_eq_prune f s "" 0 [] (fun x hx => by cases hx) hnodup
  rw [show ([] : List Item) ++ f = f from rfl] at ha
  rw [show ([] : List Item) ++ pruneL s f = pruneL s f from rfl] at ha
  have hb := reatach_restores f s "" [] (fun h => by cases h) hne
    (fun x hx => by cases hx) hnodup
  rw [show (([] : List Item)).length = 0 from rfl] at hb
  rw [show ([] : List Item) ++ pruneL s f = pruneL s f from rfl] at hb
  rw [show ([] : List Item) ++ f = f from rfl] at hb
  show ((scanChildren s "" 0 f).2).foldl (clearStep "") (filter_by s f).1 = f
  rw [show (filter_by s f).1 =
    (scanChildren s "" 0 f).2.foldl (fun acc r => removeIidL r.item.iid acc) f from rfl]
  rw [ha]
  exact hb

/-- A forest with a nested match: only the button matches `button`. -/
def forestC2 : List Item :=
  [Item.mk "i1" "frame1: ttk.Frame" "ttk.Frame"
    [Item.mk "i2" "button1: ttk.Button" "ttk.Button" []],
   Item.mk "i3" "label1: ttk.Label" "ttk.Label" []]

/-- Witness for C2: filtering the concrete forest by `button` and clearing the
filter restores it exactly. -/
theorem c2_filter_round_trip_witness :
    reatach (filter_by "button" forestC2).1 (filter_by "button" forestC2).2 = forestC2 :=
  c2_filter_round_trip "button" forestC2 (by decide) (by decide)

/-- Three top-level items of which only the last matches `button`. -/
def forestC2rev : List Item :=
  [Item.mk "a" "frame1: ttk.Frame" "ttk.Frame" [],
   Item.mk "b" "frame2: ttk.Frame" "ttk.Frame" [],
   Item.mk "c" "button1: ttk.Button" "ttk.Button" []]

/-- C2 counterexample: the claim says clearing re-attaches the recorded nodes
in the REVERSE order of detachment; replaying the records of this concrete
filter run in reverse order yields `[a, c, b]` instead of the original
`[a, b, c]`, while replaying them in the recorded (detachment) order — as
`_reatach` does — restores the forest exactly. -/
theorem c2_counterexample :
    reatachRev (filter_by "button" forestC2rev).1 (filter_by "button" forestC2rev).2
        ≠ forestC2rev
      ∧ reatach (filter_by "button" forestC2rev).1 (filter_by "button" forestC2rev).2
        = forestC2rev := by
  constructor
  · decide
  · decide

end Pygubu
